import Mathlib

/-!
Verification of the kaput-not controller (Kubernetes → Netmaker egress
reconciliation).  The definitions below are a shallow embedding of the Go
sources: `pkg/reconciler/reconciler.go`, `pkg/netmaker` (cached client, HTTP
client response validation) and the environment parsing in `cmd`.  Go strings
are modelled as `String` (operated on through their `List Char` data),
Go maps as association lists, fallible calls as `Except String`, and the
mesh / cache side effects as explicit state passing.
-/

namespace KaputNot

/-! ## Go string primitives

`goIsSpace` models `unicode.IsSpace` (the rune set used by `strings.Fields`).
`goFields` models `strings.Fields`, `splitEq` models
`strings.SplitN(field, "=", 2)` restricted to the two-element result that the
parser keeps, `sscanfD` models `fmt.Sscanf(v, "%d", &x)` and `natToChars`
models `fmt.Sprintf("%d", i)` for a non-negative value. -/

def goIsSpace (c : Char) : Bool :=
  let n := c.toNat
  decide ((9 ≤ n ∧ n ≤ 13) ∨ n = 32 ∨ n = 0x85 ∨ n = 0xA0 ∨ n = 0x1680 ∨
    (0x2000 ≤ n ∧ n ≤ 0x200A) ∨ n = 0x2028 ∨ n = 0x2029 ∨ n = 0x202F ∨
    n = 0x205F ∨ n = 0x3000)

def goFieldsAux : List Char → List Char → List (List Char)
  | [], acc => if acc.isEmpty then [] else [acc.reverse]
  | c :: cs, acc =>
    if goIsSpace c then
      if acc.isEmpty then goFieldsAux cs [] else acc.reverse :: goFieldsAux cs []
    else goFieldsAux cs (c :: acc)

def goFields (l : List Char) : List (List Char) := goFieldsAux l []

def splitEq (l : List Char) : Option (List Char × List Char) :=
  if '=' ∈ l then
    some (l.takeWhile (fun c => !(c == '=')),
          (l.dropWhile (fun c => !(c == '='))).tail)
  else none

def goIsDigit (c : Char) : Bool := decide (48 ≤ c.toNat ∧ c.toNat ≤ 57)

def digitVal (c : Char) : Nat := c.toNat - 48

def charsVal (l : List Char) : Nat := l.foldl (fun a c => 10 * a + digitVal c) 0

def parseDigits (l : List Char) : Option Nat :=
  let ds := l.takeWhile goIsDigit
  if ds.isEmpty then none else some (charsVal ds)

def sscanfD (l : List Char) : Option Int :=
  match l with
  | [] => none
  | c :: rest =>
    if c = '-' then (parseDigits rest).map (fun n => -(n : Int))
    else if c = '+' then (parseDigits rest).map (fun n => (n : Int))
    else (parseDigits (c :: rest)).map (fun n => (n : Int))

def digitChar (d : Nat) : Char :=
  match d with
  | 0 => '0' | 1 => '1' | 2 => '2' | 3 => '3' | 4 => '4'
  | 5 => '5' | 6 => '6' | 7 => '7' | 8 => '8' | _ => '9'

def natToCharsAux : Nat → Nat → List Char
  | 0, _ => []
  | _ + 1, 0 => []
  | fuel + 1, n + 1 => natToCharsAux fuel ((n + 1) / 10) ++ [digitChar ((n + 1) % 10)]

def natToChars (n : Nat) : List Char :=
  if n = 0 then ['0'] else natToCharsAux (n + 1) n

def natStr (n : Nat) : String := String.mk (natToChars n)

/-! Basic lemmas about the string primitives. -/

theorem takeWhile_app_all {p : Char → Bool} {w : List Char} (r : List Char)
    (h : ∀ x ∈ w, p x = true) : (w ++ r).takeWhile p = w ++ r.takeWhile p := by
  induction w with
  | nil => simp
  | cons c t ih =>
    have hc : p c = true := h c (by simp)
    simp only [List.cons_append, List.takeWhile_cons, hc, if_true]
    rw [ih (fun x hx => h x (by simp [hx]))]

theorem dropWhile_app_all {p : Char → Bool} {w : List Char} (r : List Char)
    (h : ∀ x ∈ w, p x = true) : (w ++ r).dropWhile p = r.dropWhile p := by
  induction w with
  | nil => simp
  | cons c t ih =>
    have hc : p c = true := h c (by simp)
    simp only [List.cons_append, List.dropWhile_cons, hc, if_true]
    exact ih (fun x hx => h x (by simp [hx]))

theorem takeWhile_all {p : Char → Bool} {w : List Char}
    (h : ∀ x ∈ w, p x = true) : w.takeWhile p = w := by
  have := takeWhile_app_all (p := p) (w := w) [] h
  simpa using this

theorem goFieldsAux_word {w : List Char} (hw : ∀ x ∈ w, goIsSpace x = false) :
    ∀ r acc, goFieldsAux (w ++ r) acc = goFieldsAux r (w.reverse ++ acc) := by
  induction w with
  | nil => intro r acc; simp
  | cons c t ih =>
    intro r acc
    have hc : goIsSpace c = false := hw c (by simp)
    rw [List.cons_append, goFieldsAux, if_neg (by simp [hc]),
      ih (fun x hx => hw x (by simp [hx]))]
    simp [List.append_assoc]

theorem goFields_single_word (w : List Char) (hne : w ≠ [])
    (hw : ∀ x ∈ w, goIsSpace x = false) : goFields w = [w] := by
  unfold goFields
  have h := goFieldsAux_word hw [] []
  rw [List.append_nil] at h
  rw [h, goFieldsAux, if_neg ?hne]
  · simp
  case hne =>
    simp only [List.append_nil, List.isEmpty_iff, List.reverse_eq_nil_iff]
    exact hne

theorem goFields_space_cons (w : List Char) : goFields (' ' :: w) = goFields w := rfl

theorem goFields_two_words (w₁ w₂ : List Char) (h₁ : w₁ ≠ []) (h₂ : w₂ ≠ [])
    (hw₁ : ∀ x ∈ w₁, goIsSpace x = false) (hw₂ : ∀ x ∈ w₂, goIsSpace x = false) :
    goFields (w₁ ++ ' ' :: w₂) = [w₁, w₂] := by
  unfold goFields
  rw [goFieldsAux_word hw₁ (' ' :: w₂) [], List.append_nil, goFieldsAux,
    if_pos (by decide), if_neg (by simp [List.isEmpty_iff, h₁]), List.reverse_reverse]
  have := goFields_single_word w₂ h₂ hw₂
  unfold goFields at this
  rw [this]

theorem charsVal_append_one (l : List Char) (c : Char) :
    charsVal (l ++ [c]) = 10 * charsVal l + digitVal c := by
  simp [charsVal, List.foldl_append]

theorem digitVal_digitChar {d : Nat} (h : d < 10) : digitVal (digitChar d) = d := by
  interval_cases d <;> rfl

theorem goIsDigit_digitChar (d : Nat) : goIsDigit (digitChar d) = true := by
  match d with
  | 0 | 1 | 2 | 3 | 4 | 5 | 6 | 7 | 8 => rfl
  | n + 9 => rfl

theorem natToCharsAux_val : ∀ fuel n, n ≤ fuel → charsVal (natToCharsAux fuel n) = n := by
  intro fuel
  induction fuel with
  | zero => intro n hn; interval_cases n; rfl
  | succ f ih =>
    intro n hn
    match n with
    | 0 => rfl
    | m + 1 =>
      have hdiv : (m + 1) / 10 ≤ f := by
        have := Nat.div_lt_self (Nat.succ_pos m) (show 1 < 10 by norm_num)
        omega
      rw [natToCharsAux, charsVal_append_one, ih ((m + 1) / 10) hdiv,
        digitVal_digitChar (Nat.mod_lt _ (by norm_num))]
      omega

theorem natToCharsAux_digits : ∀ fuel n c, c ∈ natToCharsAux fuel n → goIsDigit c = true := by
  intro fuel
  induction fuel with
  | zero => intro n c hc; simp [natToCharsAux] at hc
  | succ f ih =>
    intro n c hc
    match n with
    | 0 => simp [natToCharsAux] at hc
    | m + 1 =>
      rw [natToCharsAux] at hc
      rcases List.mem_append.mp hc with h | h
      · exact ih _ _ h
      · rw [List.mem_singleton.mp h]; exact goIsDigit_digitChar _

theorem natToChars_digits (n : Nat) : ∀ c ∈ natToChars n, goIsDigit c = true := by
  intro c hc
  unfold natToChars at hc
  split at hc
  · rw [List.mem_singleton.mp hc]; rfl
  · exact natToCharsAux_digits _ _ _ hc

theorem natToChars_ne_nil (n : Nat) : natToChars n ≠ [] := by
  unfold natToChars
  split
  · simp
  · next h =>
    match n, h with
    | m + 1, _ => rw [natToCharsAux]; simp

theorem charsVal_natToChars (n : Nat) : charsVal (natToChars n) = n := by
  unfold natToChars
  split
  · next h => rw [h]; rfl
  · exact natToCharsAux_val (n + 1) n (Nat.le_succ n)

theorem parseDigits_natToChars (n : Nat) : parseDigits (natToChars n) = some n := by
  unfold parseDigits
  rw [takeWhile_all (natToChars_digits n)]
  have hne : (natToChars n).isEmpty = false := by
    rw [List.isEmpty_eq_false_iff_exists_mem]
    rcases hl : natToChars n with _ | ⟨c, t⟩
    · exact absurd hl (natToChars_ne_nil n)
    · exact ⟨c, by simp⟩
  simp only [hne]
  simp [charsVal_natToChars]

theorem sscanfD_natToChars (n : Nat) : sscanfD (natToChars n) = some (n : Int) := by
  rcases hl : natToChars n with _ | ⟨c, t⟩
  · exact absurd hl (natToChars_ne_nil n)
  · have hcd : goIsDigit c = true := natToChars_digits n c (by rw [hl]; simp)
    have hc1 : ¬(c = '-') := fun h => by rw [h] at hcd; exact absurd hcd (by decide)
    have hc2 : ¬(c = '+') := fun h => by rw [h] at hcd; exact absurd hcd (by decide)
    simp only [sscanfD, if_neg hc1, if_neg hc2]
    rw [← hl, parseDigits_natToChars]
    rfl

/-! ## Identity and description codec (reconciler.go)

`EgressMarker`, `parseEgressDescription`, `belongsToOurCluster`,
`buildEgressDescription` and `buildEgressName` are translated from
`pkg/reconciler/reconciler.go`. -/

structure EgressMetadata where
  cluster : String
  index : Int
deriving Repr, DecidableEq

def EgressMarker : String := "Managed by kaput-not (DO NOT EDIT)"

def descrMark : String := EgressMarker ++ ": "

def applyField (m : EgressMetadata) (field : List Char) : EgressMetadata :=
  (splitEq field).elim m fun kv =>
    if kv.1 = "cluster".data then { m with cluster := String.mk kv.2 }
    else if kv.1 = "index".data then
      (sscanfD kv.2).elim m fun i => { m with index := i }
    else m

def parseDescrData (l : List Char) : Option EgressMetadata :=
  if descrMark.data.isPrefixOf l then
    some ((goFields (l.drop descrMark.data.length)).foldl applyField ⟨"", 0⟩)
  else none

def parseEgressDescription (description : String) : Option EgressMetadata :=
  parseDescrData description.data

def belongsToOurCluster (clusterName : String) (metadata : Option EgressMetadata) : Bool :=
  match metadata with
  | none => false
  | some md => if clusterName = "" then md.cluster == "" else md.cluster == clusterName

def buildEgressDescription (clusterName : String) (index : Nat) : String :=
  if clusterName ≠ "" then
    EgressMarker ++ ": cluster=" ++ clusterName ++ " index=" ++ natStr index
  else
    EgressMarker ++ ": index=" ++ natStr index

def buildEgressName (nodeName : String) (index totalCIDRs : Nat) : String :=
  nodeName ++ " pods (" ++ natStr (index + 1) ++ "/" ++ natStr totalCIDRs ++ ")"

/-- A cluster name that contains no rune `strings.Fields` splits on. -/
def spaceFree (s : String) : Bool := s.data.all fun c => !goIsSpace c

theorem data_natStr (n : Nat) : (natStr n).data = natToChars n := rfl

theorem isPrefixOf_app (l r : List Char) : l.isPrefixOf (l ++ r) = true := by
  induction l with
  | nil => simp [List.isPrefixOf]
  | cons c t ih => simp [List.isPrefixOf, ih]

theorem digit_not_space {x : Char} (h : goIsDigit x = true) : goIsSpace x = false := by
  unfold goIsDigit at h
  unfold goIsSpace
  simp at h ⊢
  omega

theorem no_space_app {w₁ w₂ : List Char} (h₁ : ∀ x ∈ w₁, goIsSpace x = false)
    (h₂ : ∀ x ∈ w₂, goIsSpace x = false) : ∀ x ∈ w₁ ++ w₂, goIsSpace x = false := by
  intro x hx
  rcases List.mem_append.mp hx with h | h
  exacts [h₁ x h, h₂ x h]

theorem no_space_cons {c : Char} {w : List Char} (hc : goIsSpace c = false)
    (h : ∀ x ∈ w, goIsSpace x = false) : ∀ x ∈ c :: w, goIsSpace x = false := by
  intro x hx
  rcases List.mem_cons.mp hx with rfl | h'
  exacts [hc, h x h']

theorem natToChars_no_space (n : Nat) : ∀ x ∈ natToChars n, goIsSpace x = false :=
  fun x hx => digit_not_space (natToChars_digits n x hx)

theorem splitEq_key_val (key val : List Char) (hkey : ∀ x ∈ key, (x == '=') = false) :
    splitEq (key ++ '=' :: val) = some (key, val) := by
  have hmem : '=' ∈ key ++ '=' :: val := List.mem_append.mpr (Or.inr (by simp))
  have ht : (key ++ '=' :: val).takeWhile (fun c => !(c == '=')) = key := by
    rw [takeWhile_app_all _ (fun x hx => by simp [hkey x hx]), List.takeWhile_cons]
    simp
  have hd : (key ++ '=' :: val).dropWhile (fun c => !(c == '=')) = '=' :: val := by
    rw [dropWhile_app_all _ (fun x hx => by simp [hkey x hx]), List.dropWhile_cons]
    simp
  unfold splitEq
  rw [if_pos hmem, ht, hd]
  rfl

theorem applyField_cluster (m : EgressMetadata) (v : List Char) :
    applyField m ("cluster".data ++ '=' :: v) = { m with cluster := String.mk v } := by
  unfold applyField
  rw [splitEq_key_val _ _ (by decide)]
  simp

theorem applyField_index_val (m : EgressMetadata) (i : Nat) :
    applyField m ("index".data ++ '=' :: natToChars i) = { m with index := (i : Int) } := by
  unfold applyField
  rw [splitEq_key_val _ _ (by decide)]
  simp [sscanfD_natToChars]

theorem parseDescr_app (rest : List Char) :
    parseDescrData (descrMark.data ++ rest)
      = some ((goFields rest).foldl applyField ⟨"", 0⟩) := by
  unfold parseDescrData
  rw [if_pos (isPrefixOf_app _ _), List.drop_left]

theorem build_data_unscoped (i : Nat) :
    (buildEgressDescription "" i).data
      = descrMark.data ++ ("index".data ++ '=' :: natToChars i) := by
  unfold buildEgressDescription
  rw [if_neg (by simp)]
  have h : (": index=" : String).data
      = (": " : String).data ++ ("index" : String).data ++ ['='] := by decide
  simp [String.data_append, descrMark, data_natStr, h, List.append_assoc]

theorem build_data_scoped (c : String) (i : Nat) (hc : c ≠ "") :
    (buildEgressDescription c i).data
      = descrMark.data ++
        (("cluster".data ++ '=' :: c.data) ++ ' ' :: ("index".data ++ '=' :: natToChars i)) := by
  unfold buildEgressDescription
  rw [if_pos hc]
  have h1 : (": cluster=" : String).data
      = (": " : String).data ++ ("cluster" : String).data ++ ['='] := by decide
  have h2 : (" index=" : String).data = [' '] ++ ("index" : String).data ++ ['='] := by decide
  simp [String.data_append, descrMark, data_natStr, h1, h2, List.append_assoc]

/-- Core round-trip: the emitted description parses back to exactly the emitted
cluster and index, provided the cluster name contains no whitespace. -/
theorem parse_build_roundtrip (c : String) (i : Nat) (h : spaceFree c = true) :
    parseEgressDescription (buildEgressDescription c i) = some ⟨c, (i : Int)⟩ := by
  have hcsp : ∀ x ∈ c.data, goIsSpace x = false := by
    intro x hx
    have := (List.all_eq_true.mp h) x hx
    simpa using this
  have hidx : ∀ x ∈ "index".data ++ '=' :: natToChars i, goIsSpace x = false :=
    no_space_app (by decide) (no_space_cons (by decide) (natToChars_no_space i))
  have hidxne : "index".data ++ '=' :: natToChars i ≠ [] := by
    intro heq
    have := congrArg List.length heq
    simp at this
  by_cases hc : c = ""
  · subst hc
    unfold parseEgressDescription
    rw [build_data_unscoped, parseDescr_app, goFields_single_word _ hidxne hidx]
    simp only [List.foldl_cons, List.foldl_nil]
    rw [applyField_index_val]
  · unfold parseEgressDescription
    rw [build_data_scoped c i hc, parseDescr_app]
    rw [goFields_two_words _ _ (by simp) hidxne
      (no_space_app (by decide) (no_space_cons (by decide) hcsp)) hidx]
    simp only [List.foldl_cons, List.foldl_nil]
    rw [applyField_cluster, applyField_index_val]

/-! ## Netmaker data model (pkg/netmaker/types.go)

Go maps are modelled as association lists (`nodes : map[string]int` becomes
`List (String × Int)`); only membership and whole-value writes are used by the
code. -/

structure Host where
  id : String
  name : String
  nodes : List String
deriving Repr, DecidableEq

structure Node where
  id : String
  hostId : String
  network : String
deriving Repr, DecidableEq

structure Egress where
  id : String
  name : String
  network : String
  description : String
  range : String
  nat : Bool
  nodes : List (String × Int)
  status : Bool
deriving Repr, DecidableEq

structure EgressReq where
  id : String
  name : String
  network : String
  description : String
  range : String
  nat : Bool
  nodes : List (String × Int)
  status : Bool
deriving Repr, DecidableEq

structure K8sNode where
  name : String
  podCIDRs : List String
deriving Repr, DecidableEq

def EgressMetric : Int := 500

/-- `e.Nodes[nodeID]` presence check on the egress nodes map. -/
def hasNode (e : Egress) (nodeID : String) : Bool := e.nodes.any fun p => p.1 == nodeID

/-- A write issued against the mesh API.  `update` and `delete` additionally
record the egress rule the call targets (the wire carries `req` resp.
`target.id`); the extra field is instrumentation used by the specification. -/
inductive Write where
  | create (req : EgressReq)
  | update (target : Egress) (req : EgressReq)
  | delete (target : Egress)
deriving Repr, DecidableEq

/-- The mesh control plane as the reconciler observes it: the outcome of
`ListHosts` / `ListNodes` (fallible, to model transport errors), the egress
store per network, and a counter from which the server mints fresh egress
ids on create. -/
structure Mesh where
  hostsResp : Except String (List Host)
  nodesResp : Except String (List Node)
  egress : String → List Egress
  nextId : Nat

def idOfNat (n : Nat) : String := String.mk ('e' :: natToChars n)

/-- Server semantics of `POST /api/v1/egress`: append an egress with a fresh id
to the request's network. -/
def applyCreate (st : Mesh) (req : EgressReq) : Mesh :=
  let e : Egress := ⟨idOfNat st.nextId, req.name, req.network, req.description,
    req.range, req.nat, req.nodes, req.status⟩
  { st with
    egress := fun w => if w = req.network then st.egress w ++ [e] else st.egress w,
    nextId := st.nextId + 1 }

/-- Server semantics of `PUT /api/v1/egress`: overwrite the fields of the rule
with the request's id inside the request's network. -/
def applyUpdate (st : Mesh) (req : EgressReq) : Mesh :=
  { st with
    egress := fun w =>
      if w = req.network then
        (st.egress w).map fun e =>
          if e.id = req.id then
            ⟨req.id, req.name, req.network, req.description, req.range, req.nat,
              req.nodes, req.status⟩
          else e
      else st.egress w }

/-- Server semantics of `DELETE /api/v1/egress?id=...`. -/
def applyDelete (st : Mesh) (egressID : String) : Mesh :=
  { st with egress := fun w => (st.egress w).filter fun e => !(e.id == egressID) }

/-- `strings.Contains`. -/
def containsSubstr (s sub : String) : Bool := decide (sub.data <:+: s.data)

/-! ## Reconciler (pkg/reconciler/reconciler.go)

`ListEgress` is modelled as reading the current egress store for the network
(the cached read is transparent in a run without intervening mesh mutations),
and the mesh write calls are modelled by `applyCreate` / `applyUpdate` /
`applyDelete` together with an appended `Write` record. -/

structure Reconciler where
  clusterName : String

/-- `GetNodeIDsByHostname` from the cached client: cached `ListHosts`, then a
linear scan for the hostname. -/
def GetNodeIDsByHostname (st : Mesh) (hostname : String) : Except String (List String) :=
  match st.hostsResp with
  | .error e => .error e
  | .ok hosts =>
    match hosts.find? (fun h => h.name == hostname) with
    | some h => .ok h.nodes
    | none => .error ("host not found with name " ++ hostname)

/-- The match test inside `reconcilePodCIDR`'s scan: managed description,
ownership filter, index equality, node-id membership. -/
def matchesEgress (r : Reconciler) (nodeID : String) (index : Int) (e : Egress) : Bool :=
  (parseEgressDescription e.description).elim false fun md =>
    belongsToOurCluster r.clusterName (some md) && md.index == index && hasNode e nodeID

def findExisting (r : Reconciler) (nodeID : String) (index : Int)
    (egresses : List Egress) : Option Egress :=
  egresses.find? (matchesEgress r nodeID index)

def reconcilePodCIDR (r : Reconciler) (st : Mesh) (nodeName nodeID podCIDR : String)
    (index totalCIDRs : Nat) (existingEgresses : List Egress) (network : String) :
    Mesh × List Write :=
  let description := buildEgressDescription r.clusterName index
  let name := buildEgressName nodeName index totalCIDRs
  match findExisting r nodeID (index : Int) existingEgresses with
  | some e =>
    if e.range = podCIDR then (st, [])
    else
      let req : EgressReq := ⟨e.id, name, e.network, description, podCIDR, false,
        [(nodeID, EgressMetric)], true⟩
      (applyUpdate st req, [Write.update e req])
  | none =>
    let req : EgressReq := ⟨"", name, network, description, podCIDR, false,
      [(nodeID, EgressMetric)], true⟩
    (applyCreate st req, [Write.create req])

def reconcileNodeInNetwork (r : Reconciler) (st : Mesh) (node : K8sNode)
    (podCIDRs : List String) (nodeID network : String) : Mesh × List Write :=
  let existingEgresses := st.egress network
  podCIDRs.enum.foldl
    (fun acc p =>
      let res := reconcilePodCIDR r acc.1 node.name nodeID p.2 p.1 podCIDRs.length
        existingEgresses network
      (res.1, acc.2 ++ res.2))
    (st, [])

def ReconcileNode (r : Reconciler) (st : Mesh) (node : K8sNode) :
    Except String (Mesh × List Write) :=
  if node.podCIDRs.isEmpty then .ok (st, [])
  else
    match GetNodeIDsByHostname st node.name with
    | .error e =>
      if containsSubstr e "not found" then .ok (st, [])
      else .error ("failed to get node IDs for node " ++ node.name ++ ": " ++ e)
    | .ok nodeIDs =>
      if nodeIDs.isEmpty then .ok (st, [])
      else
        match st.nodesResp with
        | .error e => .error ("failed to list nodes: " ++ e)
        | .ok allNodes =>
          .ok (allNodes.foldl
            (fun acc n =>
              if nodeIDs.contains n.id then
                let res := reconcileNodeInNetwork r acc.1 node node.podCIDRs n.id n.network
                (res.1, acc.2 ++ res.2)
              else acc)
            (st, []))

def deleteNodeFromNetwork (r : Reconciler) (st : Mesh) (nodeID network : String) :
    Mesh × List Write :=
  let egresses := st.egress network
  egresses.foldl
    (fun acc e =>
      if belongsToOurCluster r.clusterName (parseEgressDescription e.description) &&
          hasNode e nodeID then
        (applyDelete acc.1 e.id, acc.2 ++ [Write.delete e])
      else acc)
    (st, [])

def DeleteNode (r : Reconciler) (st : Mesh) (nodeName : String) :
    Except String (Mesh × List Write) :=
  match GetNodeIDsByHostname st nodeName with
  | .error e =>
    if containsSubstr e "not found" then .ok (st, [])
    else .error ("failed to get node IDs for node " ++ nodeName ++ ": " ++ e)
  | .ok nodeIDs =>
    if nodeIDs.isEmpty then .ok (st, [])
    else
      match st.nodesResp with
      | .error e => .error ("failed to list nodes: " ++ e)
      | .ok allNodes =>
        .ok (allNodes.foldl
          (fun acc n =>
            if nodeIDs.contains n.id then
              let res := deleteNodeFromNetwork r acc.1 n.id n.network
              (res.1, acc.2 ++ res.2)
            else acc)
          (st, []))

/-- Grouping `allNodes` by network.  Go iterates the resulting map in
unspecified order; the model fixes first-seen order, which refines the Go
behaviour for the per-write properties proved below. -/
def groupByNetwork (nodes : List Node) : List (String × List String) :=
  nodes.foldl
    (fun acc n =>
      if acc.any (fun p => p.1 == n.network) then
        acc.map fun p => if p.1 == n.network then (p.1, p.2 ++ [n.id]) else p
      else acc ++ [(n.network, [n.id])])
    []

def CleanupOrphanedEgresses (r : Reconciler) (st : Mesh) (validNodeIDs : List String) :
    Except String (Mesh × List Write) :=
  match st.nodesResp with
  | .error e => .error ("failed to list all nodes: " ++ e)
  | .ok allNodes =>
    .ok ((groupByNetwork allNodes).foldl
      (fun acc p =>
        let orphanedNodeIDs := p.2.filter fun nodeID => !validNodeIDs.contains nodeID
        orphanedNodeIDs.foldl
          (fun acc2 nodeID =>
            let res := deleteNodeFromNetwork r acc2.1 nodeID p.1
            (res.1, acc2.2 ++ res.2))
          acc)
      (st, []))

def writesOf (res : Except String (Mesh × List Write)) : List Write :=
  match res with
  | .ok p => p.2
  | .error _ => []

def meshOf (res : Except String (Mesh × List Write)) (fallback : Mesh) : Mesh :=
  match res with
  | .ok p => p.1
  | .error _ => fallback

/-! ## Cached client state (pkg/netmaker/cache.go)

The two Go maps `egressByNetwork` / `egressFetchedAt` become association
lists; the zero `time.Time` of a never-fetched global cache becomes `none`.
Each operation takes the result the embedded client would return as an
explicit argument (`fetch` / `underlying`). -/

def setKey {α : Type} (m : List (String × α)) (k : String) (v : α) : List (String × α) :=
  if m.any (fun p => p.1 == k) then m.map fun p => if p.1 == k then (k, v) else p
  else m ++ [(k, v)]

def delKey {α : Type} (m : List (String × α)) (k : String) : List (String × α) :=
  m.filter fun p => !(p.1 == k)

structure CacheState where
  hosts : List Host
  hostsFetchedAt : Option Nat
  nodes : List Node
  nodesFetchedAt : Option Nat
  egressByNetwork : List (String × List Egress)
  egressFetchedAt : List (String × Nat)
deriving Repr, DecidableEq

/-- `time.Since(fetchedAt) < ttl` with the zero time treated as never fresh. -/
def freshAt (fetchedAt : Option Nat) (now ttl : Nat) : Bool :=
  fetchedAt.elim false fun t => decide (now - t < ttl)

def cachedListHosts (now ttl : Nat) (st : CacheState) (fetch : Except String (List Host)) :
    Except String (List Host) × CacheState :=
  if freshAt st.hostsFetchedAt now ttl then (.ok st.hosts, st)
  else
    match fetch with
    | .error e => (.error e, st)
    | .ok hosts => (.ok hosts, { st with hosts := hosts, hostsFetchedAt := some now })

def cachedListNodes (now ttl : Nat) (st : CacheState) (fetch : Except String (List Node)) :
    Except String (List Node) × CacheState :=
  if freshAt st.nodesFetchedAt now ttl then (.ok st.nodes, st)
  else
    match fetch with
    | .error e => (.error e, st)
    | .ok nodes => (.ok nodes, { st with nodes := nodes, nodesFetchedAt := some now })

def cachedListEgress (now ttl : Nat) (st : CacheState) (network : String)
    (fetch : Except String (List Egress)) : Except String (List Egress) × CacheState :=
  if freshAt (st.egressFetchedAt.lookup network) now ttl then
    (.ok ((st.egressByNetwork.lookup network).getD []), st)
  else
    match fetch with
    | .error e => (.error e, st)
    | .ok egs =>
      (.ok egs, { st with
        egressByNetwork := setKey st.egressByNetwork network egs,
        egressFetchedAt := setKey st.egressFetchedAt network now })

def cachedCreateEgress (st : CacheState) (req : EgressReq)
    (underlying : Except String Egress) : Except String Egress × CacheState :=
  match underlying with
  | .error e => (.error e, st)
  | .ok eg =>
    (.ok eg, { st with
      egressByNetwork := delKey st.egressByNetwork req.network,
      egressFetchedAt := delKey st.egressFetchedAt req.network })

def cachedUpdateEgress (st : CacheState) (req : EgressReq)
    (underlying : Except String Egress) : Except String Egress × CacheState :=
  match underlying with
  | .error e => (.error e, st)
  | .ok eg =>
    (.ok eg, { st with
      egressByNetwork := delKey st.egressByNetwork req.network,
      egressFetchedAt := delKey st.egressFetchedAt req.network })

def cachedDeleteEgress (st : CacheState) (underlying : Except String Unit) :
    Except String Unit × CacheState :=
  match underlying with
  | .error e => (.error e, st)
  | .ok _ => (.ok (), { st with egressByNetwork := [], egressFetchedAt := [] })

/-! ## HTTP response validation (pkg/netmaker, HTTPClient)

Each `validate…` function performs, in source order, exactly the checks the
corresponding Go method performs on a decoded response: HTTP status, then
`Content-Type`, then the body `Code` field where the decoded type carries one
(`ListHosts` / `ListNodes` decode plain arrays with no `Code`;
`DeleteEgress` never reads the body and never inspects `Content-Type`).
`specThreeTier` is the spec-side uniform three-tier discipline, used to
compare the per-operation validators against the specification. -/

inductive ValFailure where
  | status (code : Nat)
  | contentType (ct : String)
  | bodyCode (code : Int)
  | noToken
deriving Repr, DecidableEq

def jsonContentType (ct : String) : Bool := containsSubstr ct "application/json"

def validateAuthenticate (status : Nat) (ct : String) (bodyCode : Int)
    (authToken : String) : Except ValFailure Unit :=
  if status ≠ 200 then .error (.status status)
  else if !jsonContentType ct then .error (.contentType ct)
  else if bodyCode ≠ 0 ∧ bodyCode ≠ 200 then .error (.bodyCode bodyCode)
  else if authToken = "" then .error .noToken
  else .ok ()

def validateListHosts (status : Nat) (ct : String) : Except ValFailure Unit :=
  if status ≠ 200 then .error (.status status)
  else if !jsonContentType ct then .error (.contentType ct)
  else .ok ()

def validateListNodes (status : Nat) (ct : String) : Except ValFailure Unit :=
  if status ≠ 200 then .error (.status status)
  else if !jsonContentType ct then .error (.contentType ct)
  else .ok ()

def validateListEgress (status : Nat) (ct : String) (bodyCode : Int) :
    Except ValFailure Unit :=
  if status ≠ 200 then .error (.status status)
  else if !jsonContentType ct then .error (.contentType ct)
  else if bodyCode ≠ 0 ∧ bodyCode ≠ 200 then .error (.bodyCode bodyCode)
  else .ok ()

def validateCreateEgress (status : Nat) (ct : String) (bodyCode : Int) :
    Except ValFailure Unit :=
  if status ≠ 200 ∧ status ≠ 201 then .error (.status status)
  else if !jsonContentType ct then .error (.contentType ct)
  else if bodyCode ≠ 0 ∧ bodyCode ≠ 200 ∧ bodyCode ≠ 201 then .error (.bodyCode bodyCode)
  else .ok ()

def validateUpdateEgress (status : Nat) (ct : String) (bodyCode : Int) :
    Except ValFailure Unit :=
  if status ≠ 200 then .error (.status status)
  else if !jsonContentType ct then .error (.contentType ct)
  else if bodyCode ≠ 0 ∧ bodyCode ≠ 200 then .error (.bodyCode bodyCode)
  else .ok ()

def validateDeleteEgress (status : Nat) (_ct : String) (_bodyCode : Int) :
    Except ValFailure Unit :=
  if status ≠ 200 ∧ status ≠ 204 then .error (.status status)
  else .ok ()

/-- The specification's uniform three-tier validation for a success band. -/
def specThreeTier (band : List Nat) (status : Nat) (ct : String) (bodyCode : Int) :
    Except ValFailure Unit :=
  if status ∉ band then .error (.status status)
  else if !jsonContentType ct then .error (.contentType ct)
  else if ¬(bodyCode = 0 ∨ bodyCode ∈ band.map (fun n => (n : Int))) then
    .error (.bodyCode bodyCode)
  else .ok ()

/-! ## doRequest (HTTPClient.doRequest)

The wire is a script of responses consumed one per HTTP attempt; `reauthOk`
is whether the `Authenticate` call inside the 401 branch succeeds.  The
second component counts HTTP attempts made for this request. -/

structure DoResp where
  status : Nat
  contentType : String
  bodyCode : Int
deriving Repr, DecidableEq

def doRequest (reauthOk : Bool) (responses : List DoResp) : Except String DoResp × Nat :=
  match responses with
  | [] => (.error "request failed", 0)
  | r :: rest =>
    if r.status = 401 then
      if !reauthOk then (.error "re-authentication failed", 1)
      else
        match rest with
        | [] => (.error "retry request failed", 1)
        | r2 :: _ => (.ok r2, 2)
    else (.ok r, 1)

/-! ## Environment parsing (cmd, config.go) -/

def parseBool (value : String) (defaultValue : Bool) : Bool :=
  if value = "true" ∨ value = "True" ∨ value = "TRUE" ∨ value = "1" then true
  else if value = "false" ∨ value = "False" ∨ value = "FALSE" ∨ value = "0" then false
  else defaultValue

def detectLeaderElection (envValue : String) (inCluster : Bool) : Bool :=
  if envValue ≠ "" then parseBool envValue inCluster else inCluster

/-! ## Helper definitions used by the claim statements -/

def isUpdateWrite : Write → Bool
  | .update _ _ => true
  | _ => false

/-- Update and delete writes target a rule whose description passes the
ownership filter; trivially true for creates. -/
def writeUDOwned (clusterName : String) : Write → Bool
  | .update target _ => belongsToOurCluster clusterName (parseEgressDescription target.description)
  | .delete target => belongsToOurCluster clusterName (parseEgressDescription target.description)
  | .create _ => true

/-- Create writes carry a description that passes the ownership filter;
trivially true for updates and deletes. -/
def writeCreateOwned (clusterName : String) : Write → Bool
  | .create req => belongsToOurCluster clusterName (parseEgressDescription req.description)
  | _ => true

/-- The S3 scenario state: the managed rule left by S1, named for a
single-CIDR node. -/
def s3Egress : Egress :=
  ⟨"e0", "node-a pods (1/1)", "net", "Managed by kaput-not (DO NOT EDIT): index=0",
    "10.0.0.0/24", false, [("u1", 500)], true⟩

def s3Mesh : Mesh :=
  { hostsResp := .ok [⟨"h1", "node-a", ["u1"]⟩],
    nodesResp := .ok [⟨"u1", "h1", "net"⟩],
    egress := fun w => if w = "net" then [s3Egress] else [],
    nextId := 1 }

def s3Node : K8sNode := ⟨"node-a", ["10.0.0.0/24", "fd00::/64"]⟩

/-! ## Claim theorems -/

/-- C3 counterexample: reconciling the S3 state issues no PUT at all — the
index-0 rule's range already matches, so the stale name "(1/1)" is left
alone, contradicting the claimed single update with name "(1/2)". -/
theorem s3_no_update_issued :
    List.filter isUpdateWrite (writesOf (ReconcileNode ⟨""⟩ s3Mesh s3Node)) = [] := by
  decide

/-- C3 amended: reconciling node-a with `["10.0.0.0/24", "fd00::/64"]` from the
post-S1 state issues exactly one create for index 1 with range `fd00::/64`,
name `node-a pods (2/2)` and the index-1 description, and no update: the
index-0 rule is untouched (its name stays `node-a pods (1/1)`). -/
theorem s3_creates_without_update :
    writesOf (ReconcileNode ⟨""⟩ s3Mesh s3Node)
      = [Write.create ⟨"", "node-a pods (2/2)", "net",
          "Managed by kaput-not (DO NOT EDIT): index=1", "fd00::/64", false,
          [("u1", 500)], true⟩] ∧
    ((meshOf (ReconcileNode ⟨""⟩ s3Mesh s3Node) s3Mesh).egress "net").map Egress.name
      = ["node-a pods (1/1)", "node-a pods (2/2)"] := by
  constructor <;> decide

/-- C5 counterexample: with a cluster name containing a space, the emitted
description does not parse back to the emitted pair — `strings.Fields`
truncates the cluster at the space. -/
theorem description_roundtrip_whitespace_cex :
    parseEgressDescription (buildEgressDescription "a b" 0) = some ⟨"a", 0⟩ ∧
    ("a" : String) ≠ "a b" := by
  constructor <;> decide

/-- C5 amended: for every cluster name free of `strings.Fields` whitespace
(including the empty one), and every emitted index, parsing the emitted
description classifies the rule as managed and returns exactly that cluster
and that index. -/
theorem description_roundtrip (cluster : String) (index : Nat)
    (h : spaceFree cluster = true) :
    parseEgressDescription (buildEgressDescription cluster index)
      = some ⟨cluster, (index : Int)⟩ :=
  parse_build_roundtrip cluster index h

theorem description_roundtrip_witness :
    spaceFree "us-east" = true ∧
    parseEgressDescription (buildEgressDescription "us-east" 3) = some ⟨"us-east", 3⟩ :=
  ⟨by decide, description_roundtrip "us-east" 3 (by decide)⟩

/-- C9: any host-lookup failure whose message contains the substring
"not found" — including transport or decode failures from `ListHosts` —
makes `ReconcileNode` and `DeleteNode` return success with no writes. -/
theorem not_found_silent_success :
    (∀ (r : Reconciler) (st : Mesh) (node : K8sNode) (e : String),
        st.hostsResp = .error e → containsSubstr e "not found" = true →
        ReconcileNode r st node = .ok (st, [])) ∧
    (∀ (r : Reconciler) (st : Mesh) (name e : String),
        st.hostsResp = .error e → containsSubstr e "not found" = true →
        DeleteNode r st name = .ok (st, [])) := by
  constructor
  · intro r st node e hresp hsub
    unfold ReconcileNode
    by_cases hE : node.podCIDRs.isEmpty
    · rw [if_pos hE]
    · rw [if_neg hE]
      unfold GetNodeIDsByHostname
      rw [hresp]
      simp [hsub]
  · intro r st name e hresp hsub
    unfold DeleteNode
    unfold GetNodeIDsByHostname
    rw [hresp]
    simp [hsub]

theorem not_found_silent_success_witness :
    ReconcileNode ⟨""⟩
      ⟨.error "decode failed: backend not found in pool", .ok [], fun _ => [], 0⟩
      ⟨"node-a", ["10.0.0.0/24"]⟩
      = .ok (⟨.error "decode failed: backend not found in pool", .ok [], fun _ => [], 0⟩, []) :=
  not_found_silent_success.1 ⟨""⟩ _ _ "decode failed: backend not found in pool" rfl
    (by decide)

/-- C10: a failed underlying call leaves the entire cache state unchanged —
failed reads update no value and no timestamp, failed writes invalidate
nothing. -/
theorem cache_unchanged_on_error :
    (∀ (now ttl : Nat) (st : CacheState) (e : String),
        (cachedListHosts now ttl st (.error e)).2 = st) ∧
    (∀ (now ttl : Nat) (st : CacheState) (e : String),
        (cachedListNodes now ttl st (.error e)).2 = st) ∧
    (∀ (now ttl : Nat) (st : CacheState) (network e : String),
        (cachedListEgress now ttl st network (.error e)).2 = st) ∧
    (∀ (st : CacheState) (req : EgressReq) (e : String),
        (cachedCreateEgress st req (.error e)).2 = st) ∧
    (∀ (st : CacheState) (req : EgressReq) (e : String),
        (cachedUpdateEgress st req (.error e)).2 = st) ∧
    (∀ (st : CacheState) (e : String),
        (cachedDeleteEgress st (.error e)).2 = st) := by
  refine ⟨?_, ?_, ?_, ?_, ?_, ?_⟩
  · intro now ttl st e; unfold cachedListHosts; split <;> rfl
  · intro now ttl st e; unfold cachedListNodes; split <;> rfl
  · intro now ttl st network e; unfold cachedListEgress; split <;> rfl
  · intro st req e; rfl
  · intro st req e; rfl
  · intro st e; rfl

theorem lookup_delKey_self {α : Type} (m : List (String × α)) (k : String) :
    (delKey m k).lookup k = none := by
  induction m with
  | nil => rfl
  | cons p t ih =>
    by_cases hp : p.1 = k
    · simpa [delKey, List.filter_cons, hp] using ih
    · have hstep : delKey (p :: t) k = p :: delKey t k := by
        simp [delKey, List.filter_cons, hp]
      rw [hstep, List.lookup_cons]
      have : (k == p.1) = false := by
        simp [beq_iff_eq]
        exact fun h => hp h.symm
      simp only [this]
      exact ih

theorem lookup_delKey_other {α : Type} (m : List (String × α)) (k k' : String)
    (h : k' ≠ k) : (delKey m k).lookup k' = m.lookup k' := by
  induction m with
  | nil => rfl
  | cons p t ih =>
    by_cases hp : p.1 = k
    · have hstep : delKey (p :: t) k = delKey t k := by
        simp [delKey, List.filter_cons, hp]
      rw [hstep, ih, List.lookup_cons]
      have : (k' == p.1) = false := by
        simp [beq_iff_eq, hp]
        exact h
      simp only [this]
    · have hstep : delKey (p :: t) k = p :: delKey t k := by
        simp [delKey, List.filter_cons, hp]
      rw [hstep, List.lookup_cons, List.lookup_cons]
      by_cases hk : (k' == p.1) = true
      · simp only [hk]
      · have hk' : (k' == p.1) = false := by simpa using hk
        simp only [hk']
        exact ih

/-- C7: a successful create or update on the cached client invalidates exactly
the egress cache entry (value and timestamp) for the request's network,
leaving other networks' entries and the hosts and nodes caches untouched; a
successful delete invalidates every egress entry and nothing else. -/
theorem cache_invalidation_frame :
    (∀ (st : CacheState) (req : EgressReq) (eg : Egress),
        (cachedCreateEgress st req (.ok eg)).2.hosts = st.hosts ∧
        (cachedCreateEgress st req (.ok eg)).2.hostsFetchedAt = st.hostsFetchedAt ∧
        (cachedCreateEgress st req (.ok eg)).2.nodes = st.nodes ∧
        (cachedCreateEgress st req (.ok eg)).2.nodesFetchedAt = st.nodesFetchedAt ∧
        (cachedCreateEgress st req (.ok eg)).2.egressByNetwork.lookup req.network = none ∧
        (cachedCreateEgress st req (.ok eg)).2.egressFetchedAt.lookup req.network = none ∧
        (∀ w, w ≠ req.network →
          (cachedCreateEgress st req (.ok eg)).2.egressByNetwork.lookup w
              = st.egressByNetwork.lookup w ∧
          (cachedCreateEgress st req (.ok eg)).2.egressFetchedAt.lookup w
              = st.egressFetchedAt.lookup w)) ∧
    (∀ (st : CacheState) (req : EgressReq) (eg : Egress),
        (cachedUpdateEgress st req (.ok eg)).2.hosts = st.hosts ∧
        (cachedUpdateEgress st req (.ok eg)).2.hostsFetchedAt = st.hostsFetchedAt ∧
        (cachedUpdateEgress st req (.ok eg)).2.nodes = st.nodes ∧
        (cachedUpdateEgress st req (.ok eg)).2.nodesFetchedAt = st.nodesFetchedAt ∧
        (cachedUpdateEgress st req (.ok eg)).2.egressByNetwork.lookup req.network = none ∧
        (cachedUpdateEgress st req (.ok eg)).2.egressFetchedAt.lookup req.network = none ∧
        (∀ w, w ≠ req.network →
          (cachedUpdateEgress st req (.ok eg)).2.egressByNetwork.lookup w
              = st.egressByNetwork.lookup w ∧
          (cachedUpdateEgress st req (.ok eg)).2.egressFetchedAt.lookup w
              = st.egressFetchedAt.lookup w)) ∧
    (∀ (st : CacheState),
        (cachedDeleteEgress st (.ok ())).2.hosts = st.hosts ∧
        (cachedDeleteEgress st (.ok ())).2.hostsFetchedAt = st.hostsFetchedAt ∧
        (cachedDeleteEgress st (.ok ())).2.nodes = st.nodes ∧
        (cachedDeleteEgress st (.ok ())).2.nodesFetchedAt = st.nodesFetchedAt ∧
        (∀ w, (cachedDeleteEgress st (.ok ())).2.egressByNetwork.lookup w = none ∧
          (cachedDeleteEgress st (.ok ())).2.egressFetchedAt.lookup w = none)) := by
  refine ⟨?_, ?_, ?_⟩
  · intro st req eg
    refine ⟨rfl, rfl, rfl, rfl, lookup_delKey_self _ _, lookup_delKey_self _ _, ?_⟩
    intro w hw
    exact ⟨lookup_delKey_other _ _ _ hw, lookup_delKey_other _ _ _ hw⟩
  · intro st req eg
    refine ⟨rfl, rfl, rfl, rfl, lookup_delKey_self _ _, lookup_delKey_self _ _, ?_⟩
    intro w hw
    exact ⟨lookup_delKey_other _ _ _ hw, lookup_delKey_other _ _ _ hw⟩
  · intro st
    exact ⟨rfl, rfl, rfl, rfl, fun w => ⟨rfl, rfl⟩⟩

theorem cache_invalidation_frame_witness :
    (cachedCreateEgress
        ⟨[], none, [], none, [("net", [s3Egress]), ("other", [])], [("net", 5), ("other", 7)]⟩
        ⟨"", "n", "net", "", "", false, [], true⟩ (.ok s3Egress)).2.egressByNetwork.lookup "net"
      = none ∧
    (cachedCreateEgress
        ⟨[], none, [], none, [("net", [s3Egress]), ("other", [])], [("net", 5), ("other", 7)]⟩
        ⟨"", "n", "net", "", "", false, [], true⟩ (.ok s3Egress)).2.egressFetchedAt.lookup "other"
      = some 7 := by
  constructor
  · exact (cache_invalidation_frame.1
      ⟨[], none, [], none, [("net", [s3Egress]), ("other", [])], [("net", 5), ("other", 7)]⟩
      ⟨"", "n", "net", "", "", false, [], true⟩ s3Egress).2.2.2.2.1
  · have h := ((cache_invalidation_frame.1
      ⟨[], none, [], none, [("net", [s3Egress]), ("other", [])], [("net", 5), ("other", 7)]⟩
      ⟨"", "n", "net", "", "", false, [], true⟩ s3Egress).2.2.2.2.2.2 "other" (by decide)).2
    rw [h]
    decide

/-- C8 counterexample: `tRUE` is a capitalization of `true` but is not
accepted — `parseBool` falls back to the default instead of overriding it. -/
theorem leader_election_parse_cex :
    "tRUE".data.map Char.toLower = "true".data ∧ ("tRUE" : String) ≠ "" ∧
    detectLeaderElection "tRUE" false = false := by
  refine ⟨by decide, by decide, rfl⟩

/-- C8 amended: a non-empty `LEADER_ELECTION_ENABLED` value overrides the
auto-detected default exactly when it is one of `true`, `True`, `TRUE`, `1`
(giving true) or `false`, `False`, `FALSE`, `0` (giving false); every other
value — including other capitalizations such as `tRUE` — falls back to the
auto-detected in-cluster default. -/
theorem leader_election_parse :
    (∀ (d : Bool), ∀ v ∈ (["true", "True", "TRUE", "1"] : List String),
        detectLeaderElection v d = true) ∧
    (∀ (d : Bool), ∀ v ∈ (["false", "False", "FALSE", "0"] : List String),
        detectLeaderElection v d = false) ∧
    (∀ (d : Bool) (v : String), v ≠ "" →
        v ∉ (["true", "True", "TRUE", "1", "false", "False", "FALSE", "0"] : List String) →
        detectLeaderElection v d = d) := by
  refine ⟨?_, ?_, ?_⟩
  · intro d v hv
    fin_cases hv <;> cases d <;> rfl
  · intro d v hv
    fin_cases hv <;> cases d <;> rfl
  · intro d v hne hmem
    simp only [List.mem_cons, List.mem_singleton, not_or] at hmem
    obtain ⟨h1, h2, h3, h4, h5, h6, h7, h8⟩ := hmem
    unfold detectLeaderElection
    rw [if_pos hne]
    unfold parseBool
    rw [if_neg (by tauto), if_neg (by tauto)]

theorem leader_election_parse_witness :
    ("on" : String) ≠ "" ∧ detectLeaderElection "on" true = true :=
  ⟨by decide, leader_election_parse.2.2 true "on" (by decide) (by decide)⟩

/-- C6: a request through `doRequest` makes at most two HTTP attempts; a retry
happens only when the first response is unauthorized and re-authentication
succeeds, in which case exactly one retry is made and its response is
returned as-is — so a second 401 reaches the caller's status check, which
rejects it — and a failed re-authentication is returned as an error. -/
theorem single_401_retry :
    (∀ (a : Bool) (rs : List DoResp), (doRequest a rs).2 ≤ 2) ∧
    (∀ (a : Bool) (rs : List DoResp), (doRequest a rs).2 = 2 →
        ∃ r rest, rs = r :: rest ∧ r.status = 401 ∧ a = true) ∧
    (∀ (r r2 : DoResp) (rest : List DoResp), r.status = 401 →
        doRequest true (r :: r2 :: rest) = (.ok r2, 2)) ∧
    (∀ (r r2 : DoResp) (rest : List DoResp), r.status = 401 → r2.status = 401 →
        (doRequest true (r :: r2 :: rest)).1 = .ok r2 ∧
        validateListHosts r2.status r2.contentType = .error (.status 401) ∧
        validateListNodes r2.status r2.contentType = .error (.status 401) ∧
        validateListEgress r2.status r2.contentType r2.bodyCode = .error (.status 401) ∧
        validateCreateEgress r2.status r2.contentType r2.bodyCode = .error (.status 401) ∧
        validateUpdateEgress r2.status r2.contentType r2.bodyCode = .error (.status 401) ∧
        validateDeleteEgress r2.status r2.contentType r2.bodyCode = .error (.status 401)) ∧
    (∀ (r : DoResp) (rest : List DoResp), r.status = 401 →
        doRequest false (r :: rest) = (.error "re-authentication failed", 1)) := by
  refine ⟨?_, ?_, ?_, ?_, ?_⟩
  · intro a rs
    rcases a with _ | _ <;> rcases rs with _ | ⟨r, _ | ⟨r2, rest⟩⟩ <;>
      simp [doRequest] <;> split <;> simp
  · intro a rs h
    rcases a with _ | _ <;> rcases rs with _ | ⟨r, rest⟩
    · simp [doRequest] at h
    · by_cases h401 : r.status = 401 <;> simp [doRequest, h401] at h
    · simp [doRequest] at h
    · by_cases h401 : r.status = 401
      · exact ⟨r, rest, rfl, h401, rfl⟩
      · simp [doRequest, h401] at h
  · intro r r2 rest h401
    simp [doRequest, h401]
  · intro r r2 rest h401 h401b
    refine ⟨by simp [doRequest, h401], ?_, ?_, ?_, ?_, ?_, ?_⟩ <;> rw [h401b] <;> rfl
  · intro r rest h401
    simp [doRequest, h401]

theorem single_401_retry_witness :
    doRequest true [⟨401, "application/json", 0⟩, ⟨401, "application/json", 0⟩]
        = (.ok ⟨401, "application/json", 0⟩, 2) ∧
    validateListHosts 401 "application/json" = .error (.status 401) :=
  ⟨(single_401_retry.2.2.1 ⟨401, "application/json", 0⟩ ⟨401, "application/json", 0⟩ []
      rfl),
   ((single_401_retry.2.2.2.1 ⟨401, "application/json", 0⟩ ⟨401, "application/json", 0⟩ []
      rfl rfl).2.1)⟩

/-- C4 counterexample: `DeleteEgress` accepts a 200 response whose
`Content-Type` is not JSON — tier 2 of the claimed three-tier validation is
not applied to deletes. -/
theorem delete_egress_skips_content_type :
    validateDeleteEgress 200 "text/html" 0 = .ok () ∧
    jsonContentType "text/html" = false ∧
    specThreeTier [200, 204] 200 "text/html" 0 = .error (.contentType "text/html") := by
  refine ⟨rfl, by decide, rfl⟩

/-- C4 amended: authenticate (when a token is present in the body), listHosts,
listNodes, listEgress, createEgress and updateEgress validate their response
by exactly the three ordered tiers — status in the operation's band,
Content-Type containing `application/json`, body `Code` zero or in the band
(vacuous for the two list endpoints, whose decoded bodies carry no `Code`
field) — while deleteEgress checks only that the status is 200 or 204 and
skips the Content-Type and body-code tiers. -/
theorem response_validation_tiers :
    (∀ (s : Nat) (ct : String) (k : Int) (tok : String), tok ≠ "" →
        validateAuthenticate s ct k tok = specThreeTier [200] s ct k) ∧
    (∀ (s : Nat) (ct : String), validateListHosts s ct = specThreeTier [200] s ct 0) ∧
    (∀ (s : Nat) (ct : String), validateListNodes s ct = specThreeTier [200] s ct 0) ∧
    (∀ (s : Nat) (ct : String) (k : Int),
        validateListEgress s ct k = specThreeTier [200] s ct k) ∧
    (∀ (s : Nat) (ct : String) (k : Int),
        validateCreateEgress s ct k = specThreeTier [200, 201] s ct k) ∧
    (∀ (s : Nat) (ct : String) (k : Int),
        validateUpdateEgress s ct k = specThreeTier [200] s ct k) ∧
    (∀ (s : Nat) (ct : String) (k : Int),
        validateDeleteEgress s ct k
          = if s = 200 ∨ s = 204 then .ok () else .error (.status s)) := by
  refine ⟨?_, ?_, ?_, ?_, ?_, ?_, ?_⟩
  · intro s ct k tok htok
    unfold validateAuthenticate specThreeTier
    split_ifs <;> simp_all
  · intro s ct
    unfold validateListHosts specThreeTier
    split_ifs <;> simp_all
  · intro s ct
    unfold validateListNodes specThreeTier
    split_ifs <;> simp_all
  · intro s ct k
    unfold validateListEgress specThreeTier
    split_ifs <;> simp_all
  · intro s ct k
    unfold validateCreateEgress specThreeTier
    split_ifs <;> simp_all
  · intro s ct k
    unfold validateUpdateEgress specThreeTier
    split_ifs <;> simp_all
  · intro s ct k
    unfold validateDeleteEgress
    split_ifs <;> simp_all

theorem response_validation_tiers_witness :
    ("token" : String) ≠ "" ∧
    validateAuthenticate 200 "application/json" 0 "token"
      = specThreeTier [200] 200 "application/json" 0 :=
  ⟨by decide, response_validation_tiers.1 200 "application/json" 0 "token" (by decide)⟩

/-! ## Write-ownership invariant (claim machinery for the reconciler) -/

theorem foldl_writes_pred {α σ : Type} (step : (σ × List Write) → α → (σ × List Write))
    (P : Write → Bool)
    (hstep : ∀ s ws x, ∃ ws', (step (s, ws) x).2 = ws ++ ws' ∧ ∀ w ∈ ws', P w = true) :
    ∀ (xs : List α) (s : σ) (ws : List Write), (∀ w ∈ ws, P w = true) →
      ∀ w ∈ (xs.foldl step (s, ws)).2, P w = true := by
  intro xs
  induction xs with
  | nil =>
    intro s ws hws w hw
    exact hws w (by simpa using hw)
  | cons x t ih =>
    intro s ws hws w hw
    obtain ⟨ws', heq, hws'⟩ := hstep s ws x
    rw [List.foldl_cons] at hw
    have hpair : step (s, ws) x = ((step (s, ws) x).1, ws ++ ws') := by
      rw [← heq]
    rw [hpair] at hw
    exact ih _ _ (fun w' hw' => (List.mem_append.mp hw').elim (hws w') (hws' w')) w hw

theorem matchesEgress_belongs {r : Reconciler} {u : String} {i : Int} {e : Egress}
    (h : matchesEgress r u i e = true) :
    belongsToOurCluster r.clusterName (parseEgressDescription e.description) = true := by
  unfold matchesEgress at h
  cases hp : parseEgressDescription e.description with
  | none => simp [hp] at h
  | some md =>
    rw [hp] at h
    simp only [Option.elim, Bool.and_eq_true] at h
    exact h.1.1

theorem findExisting_belongs {r : Reconciler} {u : String} {i : Int}
    {l : List Egress} {e : Egress} (h : findExisting r u i l = some e) :
    belongsToOurCluster r.clusterName (parseEgressDescription e.description) = true :=
  matchesEgress_belongs (List.find?_some h)

/-- Both creates in ReconcileNode carry `buildEgressDescription`; with a
whitespace-free cluster name that description passes the ownership filter. -/
theorem belongs_build (cl : String) (i : Nat) (h : spaceFree cl = true) :
    belongsToOurCluster cl (parseEgressDescription (buildEgressDescription cl i)) = true := by
  rw [parse_build_roundtrip cl i h]
  unfold belongsToOurCluster
  by_cases hcl : cl = "" <;> simp [hcl]

theorem reconcilePodCIDR_udOwned (r : Reconciler) (st : Mesh)
    (nn u cidr : String) (i N : Nat) (ex : List Egress) (net : String) :
    ∀ w ∈ (reconcilePodCIDR r st nn u cidr i N ex net).2,
      writeUDOwned r.clusterName w = true := by
  intro w hw
  unfold reconcilePodCIDR at hw
  split at hw
  next e hf =>
    split at hw
    · simp at hw
    · simp only [List.mem_singleton] at hw
      subst hw
      exact findExisting_belongs hf
  next hf =>
    simp only [List.mem_singleton] at hw
    subst hw
    rfl

theorem reconcilePodCIDR_createOwned (r : Reconciler) (st : Mesh)
    (nn u cidr : String) (i N : Nat) (ex : List Egress) (net : String)
    (hcl : spaceFree r.clusterName = true) :
    ∀ w ∈ (reconcilePodCIDR r st nn u cidr i N ex net).2,
      writeCreateOwned r.clusterName w = true := by
  intro w hw
  unfold reconcilePodCIDR at hw
  split at hw
  next e hf =>
    split at hw
    · simp at hw
    · simp only [List.mem_singleton] at hw
      subst hw
      rfl
  next hf =>
    simp only [List.mem_singleton] at hw
    subst hw
    exact belongs_build r.clusterName i hcl

theorem deleteNodeFromNetwork_udOwned (r : Reconciler) (st : Mesh) (u net : String) :
    ∀ w ∈ (deleteNodeFromNetwork r st u net).2, writeUDOwned r.clusterName w = true := by
  intro w hw
  unfold deleteNodeFromNetwork at hw
  refine foldl_writes_pred _ _ ?_ (st.egress net) st [] (by simp) w hw
  intro s ws e
  by_cases hg : (belongsToOurCluster r.clusterName (parseEgressDescription e.description) &&
      hasNode e u) = true
  · refine ⟨[Write.delete e], by simp [hg], ?_⟩
    intro w' hw'
    rw [List.mem_singleton.mp hw']
    simp only [Bool.and_eq_true] at hg
    exact hg.1
  · exact ⟨[], by simp [hg], by simp⟩

theorem deleteNodeFromNetwork_createOwned (r : Reconciler) (st : Mesh) (u net : String) :
    ∀ w ∈ (deleteNodeFromNetwork r st u net).2, writeCreateOwned r.clusterName w = true := by
  intro w hw
  unfold deleteNodeFromNetwork at hw
  refine foldl_writes_pred _ _ ?_ (st.egress net) st [] (by simp) w hw
  intro s ws e
  by_cases hg : (belongsToOurCluster r.clusterName (parseEgressDescription e.description) &&
      hasNode e u) = true
  · exact ⟨[Write.delete e], by simp [hg], by simp [writeCreateOwned]⟩
  · exact ⟨[], by simp [hg], by simp⟩

theorem reconcileNodeInNetwork_pred (r : Reconciler) (st : Mesh) (node : K8sNode)
    (cidrs : List String) (u net : String) (P : Write → Bool)
    (hstep : ∀ (s : Mesh) (nn uu cidr : String) (i N : Nat) (ex : List Egress) (nw : String),
      ∀ w ∈ (reconcilePodCIDR r s nn uu cidr i N ex nw).2, P w = true) :
    ∀ w ∈ (reconcileNodeInNetwork r st node cidrs u net).2, P w = true := by
  intro w hw
  unfold reconcileNodeInNetwork at hw
  refine foldl_writes_pred _ _ ?_ cidrs.enum st [] (by simp) w hw
  intro s ws p
  exact ⟨(reconcilePodCIDR r s node.name u p.2 p.1 cidrs.length (st.egress net) net).2,
    rfl, hstep s node.name u p.2 p.1 cidrs.length (st.egress net) net⟩

theorem foldl_writes_decomp {α σ : Type} (step : (σ × List Write) → α → (σ × List Write))
    (P : Write → Bool)
    (hstep : ∀ s ws x, ∃ ws', (step (s, ws) x).2 = ws ++ ws' ∧ ∀ w ∈ ws', P w = true) :
    ∀ (xs : List α) (s : σ) (ws : List Write),
      ∃ ws', (xs.foldl step (s, ws)).2 = ws ++ ws' ∧ ∀ w ∈ ws', P w = true := by
  intro xs
  induction xs with
  | nil => exact fun s ws => ⟨[], by simp, by simp⟩
  | cons x t ih =>
    intro s ws
    obtain ⟨ws₁, heq₁, hP₁⟩ := hstep s ws x
    obtain ⟨ws₂, heq₂, hP₂⟩ := ih (step (s, ws) x).1 (ws ++ ws₁)
    have hpair : step (s, ws) x = ((step (s, ws) x).1, ws ++ ws₁) := by
      rw [← heq₁]
    refine ⟨ws₁ ++ ws₂, ?_, ?_⟩
    · rw [List.foldl_cons, hpair, heq₂, List.append_assoc]
    · intro w hw
      exact (List.mem_append.mp hw).elim (hP₁ w) (hP₂ w)

theorem ReconcileNode_writes_pred (r : Reconciler) (st : Mesh) (node : K8sNode)
    (res : Mesh × List Write) (P : Write → Bool)
    (hpc : ∀ (s : Mesh) (nn uu cidr : String) (i N : Nat) (ex : List Egress) (nw : String),
      ∀ w ∈ (reconcilePodCIDR r s nn uu cidr i N ex nw).2, P w = true)
    (hres : ReconcileNode r st node = .ok res) :
    ∀ w ∈ res.2, P w = true := by
  unfold ReconcileNode at hres
  split at hres
  · injection hres with h
    subst h
    simp
  · split at hres
    next e heq =>
      split at hres
      · injection hres with h
        subst h
        simp
      · exact absurd hres (by simp)
    next nodeIDs heq =>
      split at hres
      · injection hres with h
        subst h
        simp
      · split at hres
        next e heq2 => exact absurd hres (by simp)
        next allNodes heq2 =>
          injection hres with h
          subst h
          intro w hw
          refine foldl_writes_pred _ _ ?_ allNodes st [] (by simp) w hw
          intro s ws n
          by_cases hc : nodeIDs.contains n.id
          · exact ⟨(reconcileNodeInNetwork r s node node.podCIDRs n.id n.network).2,
              by rw [if_pos hc],
              reconcileNodeInNetwork_pred r s node node.podCIDRs n.id n.network P hpc⟩
          · exact ⟨[], by rw [if_neg hc]; simp, by simp⟩

theorem DeleteNode_writes_pred (r : Reconciler) (st : Mesh) (name : String)
    (res : Mesh × List Write) (P : Write → Bool)
    (hdel : ∀ (s : Mesh) (u net : String),
      ∀ w ∈ (deleteNodeFromNetwork r s u net).2, P w = true)
    (hres : DeleteNode r st name = .ok res) :
    ∀ w ∈ res.2, P w = true := by
  unfold DeleteNode at hres
  split at hres
  next e heq =>
    split at hres
    · injection hres with h
      subst h
      simp
    · exact absurd hres (by simp)
  next nodeIDs heq =>
    split at hres
    · injection hres with h
      subst h
      simp
    · split at hres
      next e heq2 => exact absurd hres (by simp)
      next allNodes heq2 =>
        injection hres with h
        subst h
        intro w hw
        refine foldl_writes_pred _ _ ?_ allNodes st [] (by simp) w hw
        intro s ws n
        by_cases hc : nodeIDs.contains n.id
        · exact ⟨(deleteNodeFromNetwork r s n.id n.network).2, by rw [if_pos hc],
            hdel s n.id n.network⟩
        · exact ⟨[], by rw [if_neg hc]; simp, by simp⟩

theorem Cleanup_writes_pred (r : Reconciler) (st : Mesh) (valid : List String)
    (res : Mesh × List Write) (P : Write → Bool)
    (hdel : ∀ (s : Mesh) (u net : String),
      ∀ w ∈ (deleteNodeFromNetwork r s u net).2, P w = true)
    (hres : CleanupOrphanedEgresses r st valid = .ok res) :
    ∀ w ∈ res.2, P w = true := by
  unfold CleanupOrphanedEgresses at hres
  split at hres
  next e heq => exact absurd hres (by simp)
  next allNodes heq =>
    injection hres with h
    subst h
    intro w hw
    refine foldl_writes_pred _ _ ?_ (groupByNetwork allNodes) st [] (by simp) w hw
    intro s ws p
    exact foldl_writes_decomp _ P
      (fun s' ws' u => ⟨(deleteNodeFromNetwork r s' u p.1).2, rfl, hdel s' u p.1⟩)
      (p.2.filter fun nodeID => !valid.contains nodeID) s ws

/-- Concrete mesh and node used by the C1 counterexample and witness. -/
def c1Mesh : Mesh :=
  { hostsResp := .ok [⟨"h1", "node-a", ["u1"]⟩],
    nodesResp := .ok [⟨"u1", "h1", "net"⟩],
    egress := fun _ => [],
    nextId := 0 }

def c1Node : K8sNode := ⟨"node-a", ["10.0.0.0/24"]⟩

/-- C1 counterexample: with the cluster name `a b`, the create issued for a
fresh node carries a description that does not pass the ownership filter —
the parsed cluster is `a`, not `a b` — so the claim's "every create carries
an owned description for the configured scope" fails as stated. -/
theorem egress_create_ownership_cex :
    writesOf (ReconcileNode ⟨"a b"⟩ c1Mesh c1Node)
      = [Write.create ⟨"", "node-a pods (1/1)", "net",
          "Managed by kaput-not (DO NOT EDIT): cluster=a b index=0", "10.0.0.0/24",
          false, [("u1", 500)], true⟩] ∧
    writeCreateOwned "a b" (Write.create ⟨"", "node-a pods (1/1)", "net",
          "Managed by kaput-not (DO NOT EDIT): cluster=a b index=0", "10.0.0.0/24",
          false, [("u1", 500)], true⟩) = false := by
  constructor <;> decide

/-- C1 amended: every update or delete issued by ReconcileNode, DeleteNode or
CleanupOrphanedEgresses targets a rule whose description parses as managed
and passes the ownership filter for the configured cluster scope — for any
configured cluster name — and every create carries an owned description
provided the configured cluster name contains no whitespace. -/
theorem egress_write_ownership :
    (∀ (r : Reconciler) (st : Mesh) (node : K8sNode) (res : Mesh × List Write),
        ReconcileNode r st node = .ok res →
        ∀ w ∈ res.2, writeUDOwned r.clusterName w = true) ∧
    (∀ (r : Reconciler) (st : Mesh) (name : String) (res : Mesh × List Write),
        DeleteNode r st name = .ok res →
        ∀ w ∈ res.2, writeUDOwned r.clusterName w = true) ∧
    (∀ (r : Reconciler) (st : Mesh) (valid : List String) (res : Mesh × List Write),
        CleanupOrphanedEgresses r st valid = .ok res →
        ∀ w ∈ res.2, writeUDOwned r.clusterName w = true) ∧
    (∀ (r : Reconciler) (st : Mesh) (node : K8sNode) (res : Mesh × List Write),
        spaceFree r.clusterName = true → ReconcileNode r st node = .ok res →
        ∀ w ∈ res.2, writeCreateOwned r.clusterName w = true) := by
  refine ⟨?_, ?_, ?_, ?_⟩
  · intro r st node res hres
    exact ReconcileNode_writes_pred r st node res _
      (fun s nn uu cidr i N ex nw => reconcilePodCIDR_udOwned r s nn uu cidr i N ex nw) hres
  · intro r st name res hres
    exact DeleteNode_writes_pred r st name res _
      (fun s u net => deleteNodeFromNetwork_udOwned r s u net) hres
  · intro r st valid res hres
    exact Cleanup_writes_pred r st valid res _
      (fun s u net => deleteNodeFromNetwork_udOwned r s u net) hres
  · intro r st node res hcl hres
    exact ReconcileNode_writes_pred r st node res _
      (fun s nn uu cidr i N ex nw =>
        reconcilePodCIDR_createOwned r s nn uu cidr i N ex nw hcl) hres

theorem egress_write_ownership_witness :
    writeCreateOwned "us-east" (Write.create ⟨"", "node-a pods (1/1)", "net",
      "Managed by kaput-not (DO NOT EDIT): cluster=us-east index=0", "10.0.0.0/24",
      false, [("u1", 500)], true⟩) = true := by
  have h := egress_write_ownership.2.2.2 ⟨"us-east"⟩ c1Mesh c1Node
    (meshOf (ReconcileNode ⟨"us-east"⟩ c1Mesh c1Node) c1Mesh,
     writesOf (ReconcileNode ⟨"us-east"⟩ c1Mesh c1Node))
    (by decide) rfl
  exact h _ (by decide)

/-! ## Idempotence machinery (claim C2)

`goodFor` says every `(index, cidr)` pair of the node finds an owned match
with the desired range, so the per-CIDR loop takes its do-nothing branch.
`MeshWF` is the server-side sanity invariant: per-network ids are distinct,
stored rules carry their network, and ids never collide with ids the server
will mint. -/

def goodFor (r : Reconciler) (u : String) (cidrs : List String) (l : List Egress) : Prop :=
  ∀ p ∈ cidrs.enum, ∃ e, findExisting r u (p.1 : Int) l = some e ∧ e.range = p.2

def MeshWF (st : Mesh) : Prop :=
  ∀ w, ((st.egress w).map Egress.id).Nodup ∧
    (∀ e ∈ st.egress w, e.network = w) ∧
    (∀ e ∈ st.egress w, ∀ m, st.nextId ≤ m → e.id ≠ idOfNat m)

theorem find?_append_some {l₁ l₂ : List Egress} {q : Egress → Bool} {a : Egress}
    (h : l₁.find? q = some a) : (l₁ ++ l₂).find? q = some a := by
  rw [List.find?_append, h]
  rfl

theorem find?_append_none {l₁ l₂ : List Egress} {q : Egress → Bool}
    (h : l₁.find? q = none) : (l₁ ++ l₂).find? q = l₂.find? q := by
  rw [List.find?_append, h]
  rfl

theorem find?_map_stable {l : List Egress} {q : Egress → Bool} {g : Egress → Egress}
    (hng : ∀ x ∈ l, q x = false → q (g x) = false) {a : Egress}
    (hfind : l.find? q = some a) (hqa : q (g a) = true) :
    (l.map g).find? q = some (g a) := by
  induction l with
  | nil => simp at hfind
  | cons x t ih =>
    by_cases hx : q x = true
    · rw [List.find?_cons_of_pos _ hx] at hfind
      injection hfind with h
      subst h
      rw [List.map_cons, List.find?_cons_of_pos _ hqa]
    · have hx' : q x = false := by simpa using hx
      rw [List.find?_cons_of_neg _ hx] at hfind
      rw [List.map_cons, List.find?_cons_of_neg]
      · exact ih (fun y hy hqy => hng y (by simp [hy]) hqy) hfind
      · simp [hng x (by simp) hx']

theorem idOfNat_inj {a b : Nat} (h : idOfNat a = idOfNat b) : a = b := by
  have hd : 'e' :: natToChars a = 'e' :: natToChars b := congrArg String.data h
  have hx : natToChars a = natToChars b := by injection hd
  calc a = charsVal (natToChars a) := (charsVal_natToChars a).symm
    _ = charsVal (natToChars b) := by rw [hx]
    _ = b := charsVal_natToChars b

theorem matchesEgress_parse {r : Reconciler} {u : String} {i : Int} {e : Egress}
    (h : matchesEgress r u i e = true) :
    ∃ md, parseEgressDescription e.description = some md ∧ md.index = i ∧
      hasNode e u = true := by
  unfold matchesEgress at h
  cases hp : parseEgressDescription e.description with
  | none => rw [hp] at h; simp [Option.elim] at h
  | some md =>
    rw [hp] at h
    simp only [Option.elim, Bool.and_eq_true, beq_iff_eq] at h
    exact ⟨md, rfl, h.1.2, h.2⟩

theorem matchesEgress_index_unique {r : Reconciler} {u u' : String} {i i' : Int}
    {e : Egress} (h : matchesEgress r u i e = true)
    (h' : matchesEgress r u' i' e = true) : i = i' := by
  obtain ⟨md, hp, hi, _⟩ := matchesEgress_parse h
  obtain ⟨md', hp', hi', _⟩ := matchesEgress_parse h'
  rw [hp] at hp'
  injection hp' with hmd
  rw [← hi, hmd, hi']

theorem matchesEgress_build {r : Reconciler} (hcl : spaceFree r.clusterName = true)
    {x : Egress} {i : Nat} {u : String}
    (hd : x.description = buildEgressDescription r.clusterName i)
    (hn : x.nodes = [(u, EgressMetric)]) (u' : String) (j : Int) :
    matchesEgress r u' j x = (((i : Int) == j) && (u == u')) := by
  unfold matchesEgress
  rw [hd, parse_build_roundtrip _ _ hcl]
  simp only [Option.elim]
  unfold hasNode
  rw [hn]
  have hb : belongsToOurCluster r.clusterName (some ⟨r.clusterName, (i : Int)⟩) = true := by
    unfold belongsToOurCluster
    by_cases hc : r.clusterName = "" <;> simp [hc]
  rw [hb]
  simp [Bool.and_comm]

theorem applyUpdate_egress_at (st : Mesh) (req : EgressReq) :
    (applyUpdate st req).egress req.network
      = (st.egress req.network).map fun e =>
          if e.id = req.id then
            ⟨req.id, req.name, req.network, req.description, req.range, req.nat,
              req.nodes, req.status⟩
          else e := by
  unfold applyUpdate
  simp

theorem applyUpdate_egress_other (st : Mesh) (req : EgressReq) (w : String)
    (h : w ≠ req.network) : (applyUpdate st req).egress w = st.egress w := by
  unfold applyUpdate
  simp [h]

theorem applyCreate_egress_at (st : Mesh) (req : EgressReq) :
    (applyCreate st req).egress req.network
      = st.egress req.network ++
        [⟨idOfNat st.nextId, req.name, req.network, req.description, req.range,
          req.nat, req.nodes, req.status⟩] := by
  unfold applyCreate
  simp

theorem applyCreate_egress_other (st : Mesh) (req : EgressReq) (w : String)
    (h : w ≠ req.network) : (applyCreate st req).egress w = st.egress w := by
  unfold applyCreate
  simp [h]

theorem MeshWF_applyUpdate {st : Mesh} {req : EgressReq} (hwf : MeshWF st) :
    MeshWF (applyUpdate st req) := by
  intro w
  by_cases hw : w = req.network
  · subst hw
    obtain ⟨hnd, hn, hav⟩ := hwf req.network
    rw [applyUpdate_egress_at]
    refine ⟨?_, ?_, ?_⟩
    · have : ((st.egress req.network).map fun e =>
          if e.id = req.id then
            (⟨req.id, req.name, req.network, req.description, req.range, req.nat,
              req.nodes, req.status⟩ : Egress)
          else e).map Egress.id = (st.egress req.network).map Egress.id := by
        rw [List.map_map]
        refine List.map_congr_left ?_
        intro e he
        by_cases hid : e.id = req.id <;> simp [hid]
      rw [this]
      exact hnd
    · intro e he
      obtain ⟨x, hx, hgx⟩ := List.mem_map.mp he
      by_cases hid : x.id = req.id
      · rw [← hgx]; simp [hid]
      · rw [← hgx]; simp [hid]; exact hn x hx
    · intro e he m hm
      obtain ⟨x, hx, hgx⟩ := List.mem_map.mp he
      have hxid : e.id = x.id := by
        rw [← hgx]
        by_cases hid : x.id = req.id <;> simp [hid]
      rw [hxid]
      exact hav x hx m hm
  · have : (applyUpdate st req).egress w = st.egress w := applyUpdate_egress_other st req w hw
    rw [this]
    exact hwf w

theorem MeshWF_applyCreate {st : Mesh} {req : EgressReq} (hwf : MeshWF st) :
    MeshWF (applyCreate st req) := by
  intro w
  have hnext : (applyCreate st req).nextId = st.nextId + 1 := rfl
  by_cases hw : w = req.network
  · subst hw
    obtain ⟨hnd, hn, hav⟩ := hwf req.network
    rw [applyCreate_egress_at, hnext]
    refine ⟨?_, ?_, ?_⟩
    · rw [List.map_append]
      rw [List.nodup_append]
      refine ⟨hnd, by simp, ?_⟩
      intro x hx
      simp only [List.map_cons, List.map_nil, List.mem_singleton]
      obtain ⟨e, he, hei⟩ := List.mem_map.mp hx
      intro hxe
      subst hxe
      exact absurd rfl (hei ▸ hav e he st.nextId (Nat.le_refl _))
    · intro e he
      rcases List.mem_append.mp he with h | h
      · exact hn e h
      · rw [List.mem_singleton.mp h]
    · intro e he m hm
      rcases List.mem_append.mp he with h | h
      · exact hav e h m (by omega)
      · rw [List.mem_singleton.mp h]
        intro hcontra
        have := idOfNat_inj hcontra
        omega
  · have : (applyCreate st req).egress w = st.egress w := applyCreate_egress_other st req w hw
    rw [this, hnext]
    obtain ⟨hnd, hn, hav⟩ := hwf w
    exact ⟨hnd, hn, fun e he m hm => hav e he m (by omega)⟩

theorem findExisting_def (r : Reconciler) (u : String) (i : Int) (l : List Egress) :
    findExisting r u i l = l.find? (matchesEgress r u i) := rfl

theorem find_preserved_under_replace
    {L : List Egress} (hnd : (L.map Egress.id).Nodup)
    {e : Egress} (heL : e ∈ L) {e' : Egress}
    (hq : Egress → Bool) (hqe' : hq e' = false)
    {a : Egress} (ha : L.find? hq = some a) (hae : a ≠ e) :
    (L.map fun x => if x.id = e.id then e' else x).find? hq = some a := by
  have haL : a ∈ L := List.mem_of_find?_eq_some ha
  have haid : a.id ≠ e.id := fun h => hae (List.inj_on_of_nodup_map hnd haL heL h)
  have h := find?_map_stable (g := fun x => if x.id = e.id then e' else x)
    (q := hq) ?_ ha ?_
  · simpa [haid] using h
  · intro x hx hqx
    by_cases hxid : x.id = e.id
    · simp [hxid, hqe']
    · simp [hxid, hqx]
  · have : hq a = true := List.find?_some ha
    simp [haid, this]

theorem find_replaced_self
    {L : List Egress} (hnd : (L.map Egress.id).Nodup)
    {e : Egress} (heL : e ∈ L) {e' : Egress}
    (hq : Egress → Bool) (hqe' : hq e' = true)
    (ha : L.find? hq = some e) :
    (L.map fun x => if x.id = e.id then e' else x).find? hq = some e' := by
  have h := find?_map_stable (g := fun x => if x.id = e.id then e' else x)
    (q := hq) ?_ ha ?_
  · simpa using h
  · intro x hx hqx
    by_cases hxid : x.id = e.id
    · have hxe : x = e := List.inj_on_of_nodup_map hnd hx heL hxid
      rw [hxe] at hqx
      exact absurd (List.find?_some ha) (by simp [hqx])
    · simp [hxid, hqx]
  · simp [hqe']

theorem nomatch_under_replace {L : List Egress} {e e' : Egress}
    (hq : Egress → Bool) (hqe' : hq e' = false)
    (hall : ∀ x ∈ L, hq x = false) :
    ∀ y ∈ L.map (fun x => if x.id = e.id then e' else x), hq y = false := by
  intro y hy
  obtain ⟨x, hx, hgx⟩ := List.mem_map.mp hy
  rw [← hgx]
  by_cases hxid : x.id = e.id
  · simp [hxid, hqe']
  · simp [hxid, hall x hx]

theorem int_coe_inj {i j : Nat} (h : (i : Int) = (j : Int)) : i = j := by
  exact_mod_cast h

theorem matches_ne_of_index_ne {r : Reconciler} {u u' : String} {i j : Int}
    {e e' : Egress} (h : matchesEgress r u i e = true)
    (h' : matchesEgress r u' j e' = true) (hij : i ≠ j) : e ≠ e' := by
  intro heq
  subst heq
  exact hij (matchesEgress_index_unique h h')

/-- The per-CIDR loop body of `reconcileNodeInNetwork`, applied to the
snapshot `S` fetched once at loop entry. -/
def netStep (r : Reconciler) (nodeName u : String) (N : Nat) (S : List Egress)
    (net : String) : (Mesh × List Write) → (Nat × String) → (Mesh × List Write) :=
  fun acc p =>
    let res := reconcilePodCIDR r acc.1 nodeName u p.2 p.1 N S net
    (res.1, acc.2 ++ res.2)

theorem reconcileNodeInNetwork_eq_fold (r : Reconciler) (st : Mesh) (node : K8sNode)
    (cidrs : List String) (u net : String) :
    reconcileNodeInNetwork r st node cidrs u net
      = cidrs.enum.foldl (netStep r node.name u cidrs.length (st.egress net) net) (st, []) :=
  rfl

/-- Main inner-loop invariant: processing the remaining `(index, cidr)` pairs
keeps the mesh well-formed, touches only network `net`, leaves every
processed pair with an owned match of the desired range, and preserves
settled pairs of other mesh nodes of the same Kubernetes node. -/
theorem innerLoop_inv (r : Reconciler) (hcl : spaceFree r.clusterName = true)
    (nodeName u : String) (N : Nat) (S : List Egress) (net : String)
    (hSnet : ∀ e ∈ S, e.network = net) :
    ∀ (todo done : List (Nat × String)) (st : Mesh) (ws : List Write),
      MeshWF st →
      (((done ++ todo).map Prod.fst).Nodup) →
      (∀ p ∈ done, ∃ e,
        (st.egress net).find? (matchesEgress r u (p.1 : Int)) = some e ∧ e.range = p.2) →
      (∀ p ∈ todo,
        (S.find? (matchesEgress r u (p.1 : Int)) = none →
          ∀ x ∈ st.egress net, matchesEgress r u (p.1 : Int) x = false) ∧
        (∀ e, S.find? (matchesEgress r u (p.1 : Int)) = some e →
          (st.egress net).find? (matchesEgress r u (p.1 : Int)) = some e)) →
      MeshWF (todo.foldl (netStep r nodeName u N S net) (st, ws)).1 ∧
      (todo.foldl (netStep r nodeName u N S net) (st, ws)).1.hostsResp = st.hostsResp ∧
      (todo.foldl (netStep r nodeName u N S net) (st, ws)).1.nodesResp = st.nodesResp ∧
      (∀ w', w' ≠ net →
        (todo.foldl (netStep r nodeName u N S net) (st, ws)).1.egress w' = st.egress w') ∧
      (∀ p ∈ done ++ todo, ∃ e,
        ((todo.foldl (netStep r nodeName u N S net) (st, ws)).1.egress net).find?
          (matchesEgress r u (p.1 : Int)) = some e ∧ e.range = p.2) ∧
      (∀ u₀, u₀ ≠ u → ∀ q : Nat × String,
        (∀ p ∈ done ++ todo, q.1 = p.1 → q.2 = p.2) →
        (∃ a, (st.egress net).find? (matchesEgress r u₀ (q.1 : Int)) = some a ∧
          a.range = q.2) →
        (∃ a, ((todo.foldl (netStep r nodeName u N S net) (st, ws)).1.egress net).find?
          (matchesEgress r u₀ (q.1 : Int)) = some a ∧ a.range = q.2)) := by
  intro todo
  induction todo with
  | nil =>
    intro done st ws hwf hnd hdone hpend
    refine ⟨hwf, rfl, rfl, fun w' _ => rfl, ?_, ?_⟩
    · simpa using hdone
    · intro u₀ _ q _ hq
      exact hq
  | cons p tail ih =>
    intro done st ws hwf hnd hdone hpend
    obtain ⟨i, c⟩ := p
    rw [List.append_cons done (i, c) tail] at hnd ⊢
    -- index disjointness facts
    have hmapfst : ((done ++ [(i, c)]) ++ tail).map Prod.fst
        = (done.map Prod.fst ++ [i]) ++ tail.map Prod.fst := by
      simp
    have hnd' := hnd
    rw [hmapfst] at hnd'
    have hdi : ∀ q ∈ done, q.1 ≠ i := by
      intro q hq
      have h1 := (List.nodup_append.mp ((List.nodup_append.mp hnd').1)).2.2
      intro hqi
      exact h1 (a := q.1) (by exact List.mem_map_of_mem Prod.fst hq) (by simp [hqi])
    have hti : ∀ q ∈ tail, q.1 ≠ i := by
      intro q hq
      have h2 := (List.nodup_append.mp hnd').2.2
      intro hqi
      exact h2 (a := i) (by simp) (by rw [← hqi]; exact List.mem_map_of_mem Prod.fst hq)
    -- the pending facts for the pair being processed
    have hpendp := hpend (i, c) (by simp)
    have hpendtail : ∀ p ∈ tail, _ := fun p hp => hpend p (by simp [hp])
    rw [List.foldl_cons]
    -- case analysis on the snapshot scan
    cases hf : S.find? (matchesEgress r u (i : Int)) with
    | some e =>
      have heS : e ∈ S := List.mem_of_find?_eq_some hf
      have hematch : matchesEgress r u (i : Int) e = true := List.find?_some hf
      have henet : e.network = net := hSnet e heS
      have heL : (st.egress net).find? (matchesEgress r u (i : Int)) = some e :=
        hpendp.2 e hf
      have heLmem : e ∈ st.egress net := List.mem_of_find?_eq_some heL
      by_cases hr : e.range = c
      · -- no-op branch
        have hpc : reconcilePodCIDR r st nodeName u c i N S net = (st, []) := by
          unfold reconcilePodCIDR
          rw [findExisting_def, hf]
          simp [hr]
        have hstep : netStep r nodeName u N S net (st, ws) (i, c) = (st, ws ++ []) := by
          unfold netStep
          rw [hpc]
        rw [hstep]
        refine ih (done ++ [(i, c)]) st (ws ++ []) hwf hnd ?_ hpendtail
        intro q hq
        rcases List.mem_append.mp hq with h | h
        · exact hdone q h
        · rw [List.mem_singleton.mp h]
          exact ⟨e, heL, hr⟩
      · -- update branch
        have hpc : reconcilePodCIDR r st nodeName u c i N S net
            = (applyUpdate st ⟨e.id, buildEgressName nodeName i N, e.network,
                buildEgressDescription r.clusterName i, c, false, [(u, EgressMetric)], true⟩,
               [Write.update e ⟨e.id, buildEgressName nodeName i N, e.network,
                buildEgressDescription r.clusterName i, c, false, [(u, EgressMetric)], true⟩]) := by
          unfold reconcilePodCIDR
          rw [findExisting_def, hf]
          simp [hr]
        set req : EgressReq := ⟨e.id, buildEgressName nodeName i N, e.network,
          buildEgressDescription r.clusterName i, c, false, [(u, EgressMetric)], true⟩ with hreq
        set e' : Egress := ⟨req.id, req.name, req.network, req.description, req.range,
          req.nat, req.nodes, req.status⟩ with he'
        have hreqnet : req.network = net := henet
        have he'id : e'.id = e.id := rfl
        have hmatche' : ∀ (u₀ : String) (j : Int),
            matchesEgress r u₀ j e' = (((i : Int) == j) && (u == u₀)) := by
          intro u₀ j
          exact matchesEgress_build hcl rfl rfl u₀ j
        have hstep : netStep r nodeName u N S net (st, ws) (i, c)
            = (applyUpdate st req, ws ++ [Write.update e req]) := by
          unfold netStep
          rw [hpc]
        rw [hstep]
        have hLnd : ((st.egress net).map Egress.id).Nodup := (hwf net).1
        have hL' : (applyUpdate st req).egress net
            = (st.egress net).map fun x => if x.id = e.id then e' else x := by
          rw [← hreqnet, applyUpdate_egress_at]
        -- settled pairs carried into the recursive call
        have hdone' : ∀ q ∈ done ++ [(i, c)], ∃ a,
            ((applyUpdate st req).egress net).find? (matchesEgress r u (q.1 : Int)) = some a ∧
            a.range = q.2 := by
          intro q hq
          rcases List.mem_append.mp hq with h | h
          · obtain ⟨a, hfa, hra⟩ := hdone q h
            have hamatch : matchesEgress r u (q.1 : Int) a = true := List.find?_some hfa
            have hane : a ≠ e := by
              intro haea
              have := matchesEgress_index_unique hamatch (haea ▸ hematch)
              exact hdi q h (int_coe_inj this)
            refine ⟨a, ?_, hra⟩
            rw [hL']
            refine find_preserved_under_replace hLnd heLmem _ ?_ hfa hane
            rw [hmatche']
            have hne := hdi q h
            have : ((i : Int) == (q.1 : Int)) = false := by
              simp
              omega
            simp [this]
          · rw [List.mem_singleton.mp h]
            refine ⟨e', ?_, rfl⟩
            rw [hL']
            refine find_replaced_self hLnd heLmem _ ?_ heL
            rw [hmatche']
            simp
        -- pending pairs carried into the recursive call
        have hpend' : ∀ p ∈ tail,
            (S.find? (matchesEgress r u (p.1 : Int)) = none →
              ∀ x ∈ (applyUpdate st req).egress net,
                matchesEgress r u (p.1 : Int) x = false) ∧
            (∀ a, S.find? (matchesEgress r u (p.1 : Int)) = some a →
              ((applyUpdate st req).egress net).find?
                (matchesEgress r u (p.1 : Int)) = some a) := by
          intro p hp
          have hpi : p.1 ≠ i := hti p hp
          have hqe'p : matchesEgress r u (p.1 : Int) e' = false := by
            rw [hmatche']
            have : ((i : Int) == (p.1 : Int)) = false := by
              simp
              omega
            simp [this]
          constructor
          · intro hnone x hx
            rw [hL'] at hx
            exact nomatch_under_replace _ hqe'p ((hpend p (by simp [hp])).1 hnone) x hx
          · intro a hfa
            have haL := (hpend p (by simp [hp])).2 a hfa
            have hamatch : matchesEgress r u (p.1 : Int) a = true := List.find?_some haL
            have hane : a ≠ e := by
              intro haea
              exact hpi (int_coe_inj (matchesEgress_index_unique hamatch (haea ▸ hematch)))
            rw [hL']
            refine find_preserved_under_replace hLnd heLmem _ hqe'p haL hane
        obtain ⟨ihWF, ihH, ihN, ihF, ihS, ihP⟩ :=
          ih (done ++ [(i, c)]) (applyUpdate st req) (ws ++ [Write.update e req])
            (MeshWF_applyUpdate hwf) hnd hdone' hpend'
        refine ⟨ihWF, ihH, ihN, ?_, ihS, ?_⟩
        · intro w' hw'
          rw [ihF w' hw', applyUpdate_egress_other st req w' (by rw [hreqnet]; exact hw')]
        · intro u₀ hu₀ q hcons hset
          refine ihP u₀ hu₀ q hcons ?_
          obtain ⟨a, hfa, hra⟩ := hset
          have hamatch : matchesEgress r u₀ (q.1 : Int) a = true := List.find?_some hfa
          have hane : a ≠ e := by
            intro haea
            have hidx : (q.1 : Int) = (i : Int) :=
              matchesEgress_index_unique hamatch (haea ▸ hematch)
            have hq2 : q.2 = c := hcons (i, c) (by simp) (int_coe_inj hidx)
            rw [haea] at hra
            exact hr (hra.trans hq2)
          refine ⟨a, ?_, hra⟩
          rw [hL']
          refine find_preserved_under_replace hLnd heLmem _ ?_ hfa hane
          rw [hmatche']
          have : (u == u₀) = false := by
            simp
            exact fun hh => hu₀ hh.symm
          simp [this]
    | none =>
      -- create branch
      have hpc : reconcilePodCIDR r st nodeName u c i N S net
          = (applyCreate st ⟨"", buildEgressName nodeName i N, net,
              buildEgressDescription r.clusterName i, c, false, [(u, EgressMetric)], true⟩,
             [Write.create ⟨"", buildEgressName nodeName i N, net,
              buildEgressDescription r.clusterName i, c, false, [(u, EgressMetric)], true⟩]) := by
        unfold reconcilePodCIDR
        rw [findExisting_def, hf]
      set req : EgressReq := ⟨"", buildEgressName nodeName i N, net,
        buildEgressDescription r.clusterName i, c, false, [(u, EgressMetric)], true⟩ with hreq
      set e' : Egress := ⟨idOfNat st.nextId, req.name, req.network, req.description,
        req.range, req.nat, req.nodes, req.status⟩ with he'
      have hmatche' : ∀ (u₀ : String) (j : Int),
          matchesEgress r u₀ j e' = (((i : Int) == j) && (u == u₀)) := by
        intro u₀ j
        exact matchesEgress_build hcl rfl rfl u₀ j
      have hstep : netStep r nodeName u N S net (st, ws) (i, c)
          = (applyCreate st req, ws ++ [Write.create req]) := by
        unfold netStep
        rw [hpc]
      rw [hstep]
      have hL' : (applyCreate st req).egress net = st.egress net ++ [e'] := by
        have := applyCreate_egress_at st req
        rw [this]
      have hnomatchL : ∀ x ∈ st.egress net, matchesEgress r u (i : Int) x = false :=
        hpendp.1 hf
      have hdone' : ∀ q ∈ done ++ [(i, c)], ∃ a,
          ((applyCreate st req).egress net).find? (matchesEgress r u (q.1 : Int)) = some a ∧
          a.range = q.2 := by
        intro q hq
        rcases List.mem_append.mp hq with h | h
        · obtain ⟨a, hfa, hra⟩ := hdone q h
          refine ⟨a, ?_, hra⟩
          rw [hL']
          exact find?_append_some hfa
        · rw [List.mem_singleton.mp h]
          refine ⟨e', ?_, rfl⟩
          rw [hL']
          rw [find?_append_none (List.find?_eq_none.mpr (fun x hx => by simp [hnomatchL x hx]))]
          rw [List.find?_cons_of_pos]
          rw [hmatche']
          simp
      have hpend' : ∀ p ∈ tail,
          (S.find? (matchesEgress r u (p.1 : Int)) = none →
            ∀ x ∈ (applyCreate st req).egress net,
              matchesEgress r u (p.1 : Int) x = false) ∧
          (∀ a, S.find? (matchesEgress r u (p.1 : Int)) = some a →
            ((applyCreate st req).egress net).find?
              (matchesEgress r u (p.1 : Int)) = some a) := by
        intro p hp
        have hpi : p.1 ≠ i := hti p hp
        have hqe'p : matchesEgress r u (p.1 : Int) e' = false := by
          rw [hmatche']
          have : ((i : Int) == (p.1 : Int)) = false := by
            simp
            omega
          simp [this]
        constructor
        · intro hnone x hx
          rw [hL'] at hx
          rcases List.mem_append.mp hx with h | h
          · exact (hpend p (by simp [hp])).1 hnone x h
          · rw [List.mem_singleton.mp h]
            exact hqe'p
        · intro a hfa
          have haL := (hpend p (by simp [hp])).2 a hfa
          rw [hL']
          exact find?_append_some haL
      obtain ⟨ihWF, ihH, ihN, ihF, ihS, ihP⟩ :=
        ih (done ++ [(i, c)]) (applyCreate st req) (ws ++ [Write.create req])
          (MeshWF_applyCreate hwf) hnd hdone' hpend'
      refine ⟨ihWF, ihH, ihN, ?_, ihS, ?_⟩
      · intro w' hw'
        rw [ihF w' hw', applyCreate_egress_other st req w' hw']
      · intro u₀ hu₀ q hcons hset
        refine ihP u₀ hu₀ q hcons ?_
        obtain ⟨a, hfa, hra⟩ := hset
        refine ⟨a, ?_, hra⟩
        rw [hL']
        exact find?_append_some hfa

theorem enum_functional {l : List String} {p q : Nat × String}
    (hp : p ∈ l.enum) (hq : q ∈ l.enum) (h : q.1 = p.1) : q.2 = p.2 := by
  rw [List.mem_enum_iff_getElem?] at hp hq
  rw [h, hp] at hq
  injection hq with h'
  exact h'.symm

theorem netStep_fold_noop (r : Reconciler) (nodeName u : String) (N : Nat)
    (S : List Egress) (net : String) :
    ∀ (ps : List (Nat × String)) (st : Mesh) (ws : List Write),
      (∀ p ∈ ps, ∃ e, S.find? (matchesEgress r u (p.1 : Int)) = some e ∧ e.range = p.2) →
      ps.foldl (netStep r nodeName u N S net) (st, ws) = (st, ws) := by
  intro ps
  induction ps with
  | nil => intro st ws _; rfl
  | cons p tail ih =>
    intro st ws h
    obtain ⟨e, hf, hr⟩ := h p (by simp)
    have hpc : reconcilePodCIDR r st nodeName u p.2 p.1 N S net = (st, []) := by
      unfold reconcilePodCIDR
      rw [findExisting_def, hf]
      simp [hr]
    have hstep : netStep r nodeName u N S net (st, ws) p = (st, ws ++ []) := by
      unfold netStep
      rw [hpc]
    rw [List.foldl_cons, hstep, List.append_nil]
    exact ih st ws (fun q hq => h q (by simp [hq]))

theorem reconcileNodeInNetwork_noop (r : Reconciler) (st : Mesh) (node : K8sNode)
    (u net : String) (hgood : goodFor r u node.podCIDRs (st.egress net)) :
    reconcileNodeInNetwork r st node node.podCIDRs u net = (st, []) := by
  rw [reconcileNodeInNetwork_eq_fold]
  exact netStep_fold_noop r node.name u node.podCIDRs.length (st.egress net) net
    node.podCIDRs.enum st [] hgood

/-- One full per-network pass: preserves well-formedness, touches only its
network, establishes `goodFor` for the acting mesh node, and preserves
`goodFor` for any other mesh node of the same Kubernetes node. -/
theorem netloop_all (r : Reconciler) (hcl : spaceFree r.clusterName = true)
    (node : K8sNode) (st : Mesh) (u net : String) (hwf : MeshWF st) :
    MeshWF (reconcileNodeInNetwork r st node node.podCIDRs u net).1 ∧
    (reconcileNodeInNetwork r st node node.podCIDRs u net).1.hostsResp = st.hostsResp ∧
    (reconcileNodeInNetwork r st node node.podCIDRs u net).1.nodesResp = st.nodesResp ∧
    (∀ w', w' ≠ net →
      (reconcileNodeInNetwork r st node node.podCIDRs u net).1.egress w' = st.egress w') ∧
    goodFor r u node.podCIDRs
      ((reconcileNodeInNetwork r st node node.podCIDRs u net).1.egress net) ∧
    (∀ u₀, u₀ ≠ u → goodFor r u₀ node.podCIDRs (st.egress net) →
      goodFor r u₀ node.podCIDRs
        ((reconcileNodeInNetwork r st node node.podCIDRs u net).1.egress net)) := by
  have hSnet : ∀ e ∈ st.egress net, e.network = net := (hwf net).2.1
  have hnd : ((([] : List (Nat × String)) ++ node.podCIDRs.enum).map Prod.fst).Nodup := by
    simp only [List.nil_append]
    rw [List.enum_map_fst]
    exact List.nodup_range _
  have hpend : ∀ p ∈ node.podCIDRs.enum,
      ((st.egress net).find? (matchesEgress r u (p.1 : Int)) = none →
        ∀ x ∈ st.egress net, matchesEgress r u (p.1 : Int) x = false) ∧
      (∀ e, (st.egress net).find? (matchesEgress r u (p.1 : Int)) = some e →
        (st.egress net).find? (matchesEgress r u (p.1 : Int)) = some e) := by
    intro p _
    constructor
    · intro hnone x hx
      have := List.find?_eq_none.mp hnone x hx
      simpa using this
    · intro e he
      exact he
  obtain ⟨hWF, hH, hN, hF, hS, hP⟩ :=
    innerLoop_inv r hcl node.name u node.podCIDRs.length (st.egress net) net hSnet
      node.podCIDRs.enum [] st [] hwf hnd (by simp) hpend
  rw [reconcileNodeInNetwork_eq_fold]
  refine ⟨hWF, hH, hN, hF, ?_, ?_⟩
  · intro p hp
    exact hS p (by simpa using hp)
  · intro u₀ hu₀ hgood p hp
    exact hP u₀ hu₀ p
      (fun q hq hqp => enum_functional (by simpa using hq) hp hqp)
      (hgood p hp) |>.imp (fun a ha => ha)

def nodeStep (r : Reconciler) (node : K8sNode) (nodeIDs : List String) :
    (Mesh × List Write) → Node → (Mesh × List Write) :=
  fun acc n =>
    if nodeIDs.contains n.id then
      let res := reconcileNodeInNetwork r acc.1 node node.podCIDRs n.id n.network
      (res.1, acc.2 ++ res.2)
    else acc

theorem outerFold_pres (r : Reconciler) (hcl : spaceFree r.clusterName = true)
    (node : K8sNode) (nodeIDs : List String) :
    ∀ (ns : List Node) (st : Mesh) (ws : List Write), MeshWF st →
      MeshWF (ns.foldl (nodeStep r node nodeIDs) (st, ws)).1 ∧
      (ns.foldl (nodeStep r node nodeIDs) (st, ws)).1.hostsResp = st.hostsResp ∧
      (ns.foldl (nodeStep r node nodeIDs) (st, ws)).1.nodesResp = st.nodesResp ∧
      (∀ u₀ w₀, goodFor r u₀ node.podCIDRs (st.egress w₀) →
        goodFor r u₀ node.podCIDRs
          ((ns.foldl (nodeStep r node nodeIDs) (st, ws)).1.egress w₀)) := by
  intro ns
  induction ns with
  | nil => intro st ws hwf; exact ⟨hwf, rfl, rfl, fun _ _ h => h⟩
  | cons n t ih =>
    intro st ws hwf
    rw [List.foldl_cons]
    by_cases hc : nodeIDs.contains n.id = true
    · have hstep : nodeStep r node nodeIDs (st, ws) n
          = ((reconcileNodeInNetwork r st node node.podCIDRs n.id n.network).1,
             ws ++ (reconcileNodeInNetwork r st node node.podCIDRs n.id n.network).2) := by
        unfold nodeStep
        rw [if_pos hc]
      rw [hstep]
      obtain ⟨hWF, hH, hN, hF, _, hP⟩ := netloop_all r hcl node st n.id n.network hwf
      obtain ⟨ihWF, ihH, ihN, ihG⟩ :=
        ih (reconcileNodeInNetwork r st node node.podCIDRs n.id n.network).1
          (ws ++ (reconcileNodeInNetwork r st node node.podCIDRs n.id n.network).2) hWF
      refine ⟨ihWF, by rw [ihH, hH], by rw [ihN, hN], ?_⟩
      intro u₀ w₀ hgood
      refine ihG u₀ w₀ ?_
      by_cases hw : w₀ = n.network
      · subst hw
        by_cases hu : u₀ = n.id
        · subst hu
          rw [reconcileNodeInNetwork_noop r st node n.id n.network hgood]
          exact hgood
        · exact hP u₀ hu hgood
      · rw [hF w₀ hw]
        exact hgood
    · have hstep : nodeStep r node nodeIDs (st, ws) n = (st, ws) := by
        unfold nodeStep
        rw [if_neg hc]
      rw [hstep]
      exact ih st ws hwf

theorem outerFold_good (r : Reconciler) (hcl : spaceFree r.clusterName = true)
    (node : K8sNode) (nodeIDs : List String) :
    ∀ (ns : List Node) (st : Mesh) (ws : List Write), MeshWF st →
      MeshWF (ns.foldl (nodeStep r node nodeIDs) (st, ws)).1 ∧
      (ns.foldl (nodeStep r node nodeIDs) (st, ws)).1.hostsResp = st.hostsResp ∧
      (ns.foldl (nodeStep r node nodeIDs) (st, ws)).1.nodesResp = st.nodesResp ∧
      (∀ n ∈ ns, nodeIDs.contains n.id = true →
        goodFor r n.id node.podCIDRs
          ((ns.foldl (nodeStep r node nodeIDs) (st, ws)).1.egress n.network)) := by
  intro ns
  induction ns with
  | nil => intro st ws hwf; exact ⟨hwf, rfl, rfl, by simp⟩
  | cons n t ih =>
    intro st ws hwf
    rw [List.foldl_cons]
    by_cases hc : nodeIDs.contains n.id = true
    · have hstep : nodeStep r node nodeIDs (st, ws) n
          = ((reconcileNodeInNetwork r st node node.podCIDRs n.id n.network).1,
             ws ++ (reconcileNodeInNetwork r st node node.podCIDRs n.id n.network).2) := by
        unfold nodeStep
        rw [if_pos hc]
      rw [hstep]
      obtain ⟨hWF, hH, hN, _, hG, _⟩ := netloop_all r hcl node st n.id n.network hwf
      obtain ⟨ihWF, ihH, ihN, ihG⟩ :=
        ih (reconcileNodeInNetwork r st node node.podCIDRs n.id n.network).1
          (ws ++ (reconcileNodeInNetwork r st node node.podCIDRs n.id n.network).2) hWF
      obtain ⟨pWF, pH, pN, pG⟩ :=
        outerFold_pres r hcl node nodeIDs t
          (reconcileNodeInNetwork r st node node.podCIDRs n.id n.network).1
          (ws ++ (reconcileNodeInNetwork r st node node.podCIDRs n.id n.network).2) hWF
      refine ⟨ihWF, by rw [ihH, hH], by rw [ihN, hN], ?_⟩
      intro m hm hcm
      rcases List.mem_cons.mp hm with rfl | hmt
      · exact pG m.id m.network hG
      · exact ihG m hmt hcm
    · have hstep : nodeStep r node nodeIDs (st, ws) n = (st, ws) := by
        unfold nodeStep
        rw [if_neg hc]
      rw [hstep]
      obtain ⟨ihWF, ihH, ihN, ihG⟩ := ih st ws hwf
      refine ⟨ihWF, ihH, ihN, ?_⟩
      intro m hm hcm
      rcases List.mem_cons.mp hm with rfl | hmt
      · exact absurd hcm hc
      · exact ihG m hmt hcm

theorem outerFold_noop (r : Reconciler) (node : K8sNode) (nodeIDs : List String) :
    ∀ (ns : List Node) (st : Mesh) (ws : List Write),
      (∀ n ∈ ns, nodeIDs.contains n.id = true →
        goodFor r n.id node.podCIDRs (st.egress n.network)) →
      ns.foldl (nodeStep r node nodeIDs) (st, ws) = (st, ws) := by
  intro ns
  induction ns with
  | nil => intro st ws _; rfl
  | cons n t ih =>
    intro st ws h
    rw [List.foldl_cons]
    by_cases hc : nodeIDs.contains n.id = true
    · have hnoop := reconcileNodeInNetwork_noop r st node n.id n.network
        (h n (by simp) hc)
      have hstep : nodeStep r node nodeIDs (st, ws) n = (st, ws ++ []) := by
        unfold nodeStep
        rw [if_pos hc, hnoop]
      rw [hstep, List.append_nil]
      exact ih st ws (fun m hm hcm => h m (by simp [hm]) hcm)
    · have hstep : nodeStep r node nodeIDs (st, ws) n = (st, ws) := by
        unfold nodeStep
        rw [if_neg hc]
      rw [hstep]
      exact ih st ws (fun m hm hcm => h m (by simp [hm]) hcm)

/-- Concrete mesh and node used by the C2 counterexample and witness. -/
def c2Mesh : Mesh :=
  { hostsResp := .ok [⟨"h1", "node-a", ["u1"]⟩],
    nodesResp := .ok [⟨"u1", "h1", "net"⟩],
    egress := fun _ => [],
    nextId := 0 }

def c2Node : K8sNode := ⟨"node-a", ["10.0.0.0/24"]⟩

/-- C2 counterexample: with the cluster name `a b`, the rule created on the
first pass parses back with cluster `a`, fails the ownership filter on the
second pass's scan, and a second create is issued — the second application
is not write-free. -/
theorem reconcile_twice_writes_again :
    writesOf (ReconcileNode ⟨"a b"⟩
        (meshOf (ReconcileNode ⟨"a b"⟩ c2Mesh c2Node) c2Mesh) c2Node)
      = [Write.create ⟨"", "node-a pods (1/1)", "net",
          "Managed by kaput-not (DO NOT EDIT): cluster=a b index=0", "10.0.0.0/24",
          false, [("u1", 500)], true⟩] ∧
    writesOf (ReconcileNode ⟨"a b"⟩
        (meshOf (ReconcileNode ⟨"a b"⟩ c2Mesh c2Node) c2Mesh) c2Node) ≠ [] := by
  constructor <;> decide

/-- C2 amended: for every Kubernetes node, every well-formed mesh state and
every reconciler whose cluster name contains no whitespace, applying
ReconcileNode twice with no intervening mesh changes issues zero writes on
the second application: every (index, CIDR) pair then finds a matching owned
rule whose range equals the desired CIDR and takes the do-nothing branch. -/
theorem reconcile_twice_no_writes (r : Reconciler) (st : Mesh) (node : K8sNode)
    (hcl : spaceFree r.clusterName = true) (hwf : MeshWF st)
    (st₁ : Mesh) (ws₁ : List Write) (h1 : ReconcileNode r st node = .ok (st₁, ws₁))
    (st₂ : Mesh) (ws₂ : List Write) (h2 : ReconcileNode r st₁ node = .ok (st₂, ws₂)) :
    ws₂ = [] := by
  unfold ReconcileNode at h1
  split at h1
  case isTrue hE =>
    injection h1 with h1'
    injection h1' with hA hB
    subst hA
    unfold ReconcileNode at h2
    rw [if_pos hE] at h2
    injection h2 with h2'
    injection h2' with hA2 hB2
    exact hB2.symm
  case isFalse hE =>
    split at h1
    next e heq =>
      split at h1
      case isTrue hnf =>
        injection h1 with h1'
        injection h1' with hA hB
        subst hA
        unfold ReconcileNode at h2
        rw [if_neg hE] at h2
        split at h2
        next e2 heqB =>
          rw [heq] at heqB
          injection heqB with he2
          subst he2
          rw [if_pos hnf] at h2
          injection h2 with h2'
          injection h2' with hA2 hB2
          exact hB2.symm
        next nodeIDs2 heqB =>
          rw [heq] at heqB
          exact absurd heqB (by simp)
      case isFalse hnf => exact absurd h1 (by simp)
    next nodeIDs heq =>
      split at h1
      case isTrue hni =>
        injection h1 with h1'
        injection h1' with hA hB
        subst hA
        unfold ReconcileNode at h2
        rw [if_neg hE] at h2
        split at h2
        next e2 heqB =>
          rw [heq] at heqB
          exact absurd heqB (by simp)
        next nodeIDs2 heqB =>
          rw [heq] at heqB
          injection heqB with hids
          subst hids
          rw [if_pos hni] at h2
          injection h2 with h2'
          injection h2' with hA2 hB2
          exact hB2.symm
      case isFalse hni =>
        split at h1
        next e2 heq2 => exact absurd h1 (by simp)
        next allNodes heq2 =>
          injection h1 with h1'
          have h1f : allNodes.foldl (nodeStep r node nodeIDs) (st, []) = (st₁, ws₁) := h1'
          have hst₁ : st₁ = (allNodes.foldl (nodeStep r node nodeIDs) (st, [])).1 := by
            rw [h1f]
          obtain ⟨fWF, fH, fN, fG⟩ := outerFold_good r hcl node nodeIDs allNodes st [] hwf
          have hH₁ : st₁.hostsResp = st.hostsResp := by rw [hst₁]; exact fH
          have hN₁ : st₁.nodesResp = st.nodesResp := by rw [hst₁]; exact fN
          have hGood : ∀ n ∈ allNodes, nodeIDs.contains n.id = true →
              goodFor r n.id node.podCIDRs (st₁.egress n.network) := by
            rw [hst₁]
            exact fG
          have hG₂ : GetNodeIDsByHostname st₁ node.name = .ok nodeIDs := by
            unfold GetNodeIDsByHostname at heq ⊢
            rw [hH₁]
            exact heq
          unfold ReconcileNode at h2
          rw [if_neg hE] at h2
          split at h2
          next e2 heqB =>
            rw [hG₂] at heqB
            exact absurd heqB (by simp)
          next nodeIDs2 heqB =>
            rw [hG₂] at heqB
            injection heqB with hids
            subst hids
            rw [if_neg hni] at h2
            split at h2
            next e2 heq2B =>
              rw [hN₁, heq2] at heq2B
              exact absurd heq2B (by simp)
            next allNodes2 heq2B =>
              rw [hN₁, heq2] at heq2B
              injection heq2B with hns
              subst hns
              injection h2 with h2'
              have h2f : allNodes.foldl (nodeStep r node nodeIDs) (st₁, []) = (st₂, ws₂) := h2'
              rw [outerFold_noop r node nodeIDs allNodes st₁ [] hGood] at h2f
              injection h2f with hA2 hB2
              exact hB2.symm

theorem reconcile_twice_no_writes_witness :
    writesOf (ReconcileNode ⟨""⟩
        (meshOf (ReconcileNode ⟨""⟩ c2Mesh c2Node) c2Mesh) c2Node) = [] := by
  exact reconcile_twice_no_writes ⟨""⟩ c2Mesh c2Node (by decide)
    (by
      intro w
      refine ⟨?_, ?_, ?_⟩ <;> simp [c2Mesh])
    (meshOf (ReconcileNode ⟨""⟩ c2Mesh c2Node) c2Mesh)
    (writesOf (ReconcileNode ⟨""⟩ c2Mesh c2Node))
    rfl
    (meshOf (ReconcileNode ⟨""⟩
        (meshOf (ReconcileNode ⟨""⟩ c2Mesh c2Node) c2Mesh) c2Node)
      (meshOf (ReconcileNode ⟨""⟩ c2Mesh c2Node) c2Mesh))
    (writesOf (ReconcileNode ⟨""⟩
        (meshOf (ReconcileNode ⟨""⟩ c2Mesh c2Node) c2Mesh) c2Node))
    rfl
